import Mathlib

/-!
Verification of the offline-first sync core of the revmobile repository.

The development shallowly embeds `src/utils/sync.ts` (pull/push reconcilers)
and the web local-store adapter `src/db/database.web.ts`.  Tables are lists of
rows kept in rowid (insertion) order, which is the order in which the SQLite
full-table scans of the source return rows.  Timestamps are modelled at
day/second granularity (`Ts`): stored `syncedAt` values come from
`Date.toISOString()` (`YYYY-MM-DDTHH:MM:SS.sssZ`) while the push staleness
threshold is produced by `datetime('now','-1 minute')`
(`YYYY-MM-DD HH:MM:SS`); SQLite compares TEXT values bytewise, so the
comparison is decided by the date parts alone ('T' > ' ' whenever the dates
agree).  `Ts` keeps exactly the information this comparison and the 1-minute
subtraction need.
-/

namespace RevSync

/-- A timestamp at day/second granularity: `day` counts UTC days, `sec` the
second within the day. -/
structure Ts where
  day : Nat
  sec : Nat
deriving Repr, DecidableEq

/-- The instant denoted by a timestamp, in seconds. -/
def Ts.instant (t : Ts) : Nat := t.day * 86400 + t.sec

/-- `datetime('now','-1 minute')`: the instant one minute earlier. -/
def Ts.minusMinute (t : Ts) : Ts :=
  if 60 ≤ t.sec then ⟨t.day, t.sec - 60⟩ else ⟨t.day - 1, t.sec + 86340⟩

/-- Bytewise comparison of a stored ISO-format text timestamp (left) with a
`datetime()`-format text timestamp (right), as performed by
`syncedAt < datetime('now','-1 minute')` in the source: when the date parts
differ the dates decide; when they agree the ISO string is always the larger
('T' = 0x54 at index 10 versus ' ' = 0x20). -/
def isoLtDatetimeText (l r : Ts) : Bool := l.day < r.day

/-- Local `products` row (`src/utils/sync.ts` ProductRow / schema in
`src/db/database.web.ts`). -/
structure Product where
  id : Nat
  name : String
  costPrice : Nat
  sellingPrice : Nat
  quantity : Nat
  lowStockLevel : Nat
  createdAt : Ts
  syncedAt : Option Ts
  serverId : Option String
deriving Repr, DecidableEq

/-- Local `invoices` row. -/
structure Invoice where
  id : Nat
  totalAmount : Nat
  totalItems : Nat
  createdAt : Ts
  syncedAt : Option Ts
  serverId : Option String
deriving Repr, DecidableEq

/-- Local `invoice_items` row.  The surrogate autoincrement `id` column is
never read or written explicitly by the sync code, so it is not modelled. -/
structure InvoiceItem where
  invoiceId : Nat
  productId : Nat
  quantity : Nat
  price : Nat
deriving Repr, DecidableEq

/-- The local store: the three sync-tracked tables in rowid order plus the
autoincrement counters. -/
structure DB where
  products : List Product
  invoices : List Invoice
  items : List InvoiceItem
  nextProductId : Nat
  nextInvoiceId : Nat
deriving Repr, DecidableEq

/-- Product primary keys are unique and below the autoincrement counter, as
the SQLite schema guarantees. -/
def productIdsOk (db : DB) : Prop :=
  (∀ p ∈ db.products, p.id < db.nextProductId) ∧
  (db.products.map Product.id).Nodup

/-- Invoice primary keys are unique and below the autoincrement counter. -/
def invoiceIdsOk (db : DB) : Prop :=
  (∀ i ∈ db.invoices, i.id < db.nextInvoiceId) ∧
  (db.invoices.map Invoice.id).Nodup

/-- Well-formedness the SQLite schema guarantees. -/
def DB.WF (db : DB) : Prop := productIdsOk db ∧ invoiceIdsOk db

instance (db : DB) : Decidable (productIdsOk db) := by
  unfold productIdsOk; infer_instance

instance (db : DB) : Decidable (invoiceIdsOk db) := by
  unfold invoiceIdsOk; infer_instance

instance (db : DB) : Decidable db.WF := by
  unfold DB.WF; infer_instance

/-! ### Server-side records (`GET /sync/all` payload) -/

/-- A server product record.  `_id` is the Mongo-style string identifier
(`some` models a truthy string), `id` the numeric identifier a server export
may carry.  The source accepts both (`serverProduct._id || serverProduct.id`). -/
structure ServerProduct where
  mongoId : Option String
  id : Option Nat
  name : String
  costPrice : Nat
  sellingPrice : Nat
  quantity : Nat
  lowStockLevel : Nat
  createdAt : Option Ts
deriving Repr, DecidableEq

/-- `serverProduct._id || serverProduct.id`: the value bound for the
`serverId` column; a numeric id is stored in the TEXT column as its decimal
text. -/
def ServerProduct.effSid (sp : ServerProduct) : Option String :=
  match sp.mongoId with
  | some s => some s
  | none => sp.id.map (fun n => toString n)

/-- The reference an invoice item carries to its product:
`item.productId?._id || item.productId` in the source — either a populated
document bearing a (non-numeric) server identifier, or a plain number. -/
inductive ProdRef where
  | byStr (s : String)
  | byNum (n : Nat)
deriving Repr, DecidableEq

/-- A server invoice item. -/
structure ServerItem where
  productRef : ProdRef
  quantity : Nat
  price : Nat
deriving Repr, DecidableEq

/-- A server invoice record; `items` is the optional embedded item list.
`createdAt` is modelled as always present (the invoice UPDATE of the source
stores it without fallback; a record lacking it would violate the NOT NULL
constraint, an edge outside every claim). -/
structure ServerInvoice where
  mongoId : Option String
  id : Option Nat
  totalAmount : Nat
  totalItems : Nat
  createdAt : Ts
  items : Option (List ServerItem)
deriving Repr, DecidableEq

/-- `serverInvoice._id || serverInvoice.id`. -/
def ServerInvoice.effSid (sv : ServerInvoice) : Option String :=
  match sv.mongoId with
  | some s => some s
  | none => sv.id.map (fun n => toString n)

/-- A full server snapshot, as returned by `GET /sync/all`. -/
structure Snapshot where
  products : List ServerProduct
  invoices : List ServerInvoice
deriving Repr, DecidableEq

/-! ### Pull (`pullFromServer`) -/

/-- `SELECT * FROM products WHERE serverId = ? OR id = ?` with parameters
`[_id || id, id]`: SQL `=` against a NULL parameter or a NULL column never
matches. -/
def matchesProduct (sp : ServerProduct) (p : Product) : Bool :=
  (match sp.effSid with
   | some s => p.serverId == some s
   | none => false) ||
  (match sp.id with
   | some n => p.id == n
   | none => false)

/-- The product UPDATE of the pull loop: every mutable field, `syncedAt = now`
and `serverId = _id || id`; `id` and `createdAt` are untouched. -/
def writeProduct (now : Ts) (sp : ServerProduct) (p : Product) : Product :=
  { p with
    name := sp.name
    costPrice := sp.costPrice
    sellingPrice := sp.sellingPrice
    quantity := sp.quantity
    lowStockLevel := sp.lowStockLevel
    syncedAt := some now
    serverId := sp.effSid }

/-- The product INSERT of the pull loop; `nid` is the assigned autoincrement
id, `createdAt` falls back to now (`serverProduct.createdAt || new Date()`). -/
def insertProduct (now : Ts) (sp : ServerProduct) (nid : Nat) : Product :=
  { id := nid
    name := sp.name
    costPrice := sp.costPrice
    sellingPrice := sp.sellingPrice
    quantity := sp.quantity
    lowStockLevel := sp.lowStockLevel
    createdAt := sp.createdAt.getD now
    syncedAt := some now
    serverId := sp.effSid }

/-- One iteration of the pull product loop: the first row of the table scan
matching the upsert query is updated, otherwise a fresh row is appended. -/
def pullProductStep (now : Ts) (db : DB) (sp : ServerProduct) : DB :=
  match db.products.find? (fun p => matchesProduct sp p) with
  | some r =>
      { db with
        products := db.products.map
          (fun q => if q.id = r.id then writeProduct now sp q else q) }
  | none =>
      { db with
        products := db.products ++ [insertProduct now sp db.nextProductId]
        nextProductId := db.nextProductId + 1 }

/-- The whole pull product loop. -/
def pullProducts (now : Ts) (db : DB) (l : List ServerProduct) : DB :=
  l.foldl (pullProductStep now) db

/-- `SELECT * FROM invoices WHERE serverId = ? OR id = ?`. -/
def matchesInvoice (sv : ServerInvoice) (i : Invoice) : Bool :=
  (match sv.effSid with
   | some s => i.serverId == some s
   | none => false) ||
  (match sv.id with
   | some n => i.id == n
   | none => false)

/-- The invoice UPDATE: `totalAmount`, `totalItems`, `createdAt`,
`syncedAt = now`, `serverId`. -/
def writeInvoice (now : Ts) (sv : ServerInvoice) (i : Invoice) : Invoice :=
  { i with
    totalAmount := sv.totalAmount
    totalItems := sv.totalItems
    createdAt := sv.createdAt
    syncedAt := some now
    serverId := sv.effSid }

/-- The invoice INSERT. -/
def insertInvoice (now : Ts) (sv : ServerInvoice) (nid : Nat) : Invoice :=
  { id := nid
    totalAmount := sv.totalAmount
    totalItems := sv.totalItems
    createdAt := sv.createdAt
    syncedAt := some now
    serverId := sv.effSid }

/-- The invoice upsert part of one pull invoice iteration. -/
def pullInvoiceUpsert (now : Ts) (db : DB) (sv : ServerInvoice) : DB :=
  match db.invoices.find? (fun i => matchesInvoice sv i) with
  | some r =>
      { db with
        invoices := db.invoices.map
          (fun q => if q.id = r.id then writeInvoice now sv q else q) }
  | none =>
      { db with
        invoices := db.invoices ++ [insertInvoice now sv db.nextInvoiceId]
        nextInvoiceId := db.nextInvoiceId + 1 }

/-- The `localInvoiceId` computation of the source: the matched row's id if the
upsert query matched, otherwise the first row of the post-insert table whose
`serverId` equals `_id || id` (the lookup parameter is NULL, matching nothing,
when the record carries neither identifier). -/
def pullInvoiceLid (now : Ts) (db : DB) (sv : ServerInvoice) : Option Nat :=
  match db.invoices.find? (fun i => matchesInvoice sv i) with
  | some r => some r.id
  | none =>
      match sv.effSid with
      | some s =>
          ((pullInvoiceUpsert now db sv).invoices.find?
            (fun i => i.serverId == some s)).map Invoice.id
      | none => none

/-- `SELECT id FROM products WHERE serverId = ? OR id = ?` with the item's
product reference bound to both parameters.  A non-numeric string reference
can only match the TEXT `serverId` column; a numeric reference matches either
the stored decimal text or the integer primary key. -/
def resolveProductRef (ps : List Product) (r : ProdRef) : Option Product :=
  match r with
  | .byStr s => ps.find? (fun p => p.serverId == some s)
  | .byNum n => ps.find? (fun p => p.serverId == some (toString n) || p.id == n)

/-- The fresh local item rows inserted for one server invoice: items whose
product reference resolves to no local row are skipped. -/
def resolveItems (ps : List Product) (lid : Nat) (its : List ServerItem) :
    List InvoiceItem :=
  its.filterMap (fun it =>
    (resolveProductRef ps it.productRef).map
      (fun p => { invoiceId := lid, productId := p.id
                  quantity := it.quantity, price := it.price }))

/-- One iteration of the pull invoice loop: upsert the invoice, then, when the
record embeds an item list and the local invoice id is resolvable, delete all
its local items and insert the freshly resolved ones (resolution runs against
the post-upsert store, whose product table the upsert leaves untouched). -/
def pullInvoiceStep (now : Ts) (db : DB) (sv : ServerInvoice) : DB :=
  match sv.items with
  | none => pullInvoiceUpsert now db sv
  | some its =>
      match pullInvoiceLid now db sv with
      | none => pullInvoiceUpsert now db sv
      | some lid =>
          { pullInvoiceUpsert now db sv with
            items := (pullInvoiceUpsert now db sv).items.filter
                (fun it => it.invoiceId != lid) ++
              resolveItems (pullInvoiceUpsert now db sv).products lid its }

/-- The whole pull invoice loop. -/
def pullInvoices (now : Ts) (db : DB) (l : List ServerInvoice) : DB :=
  l.foldl (pullInvoiceStep now) db

/-- `pullFromServer`: the product loop followed by the invoice loop, inside one
transaction. -/
def pullFromServer (now : Ts) (snap : Snapshot) (db : DB) : DB :=
  pullInvoices now (pullProducts now db snap.products) snap.invoices

/-! ### Push (`pushToServer`) -/

/-- `syncedAt IS NULL OR syncedAt < datetime('now','-1 minute')` as the source
executes it: the stored value is ISO-format text, the threshold
`datetime()`-format text, and the bytewise TEXT comparison reduces to a strict
comparison of the date parts. -/
def dirtyProduct (now : Ts) (p : Product) : Bool :=
  match p.syncedAt with
  | none => true
  | some t => isoLtDatetimeText t now.minusMinute

/-- The invoice dirty-selection predicate (same query). -/
def dirtyInvoice (now : Ts) (i : Invoice) : Bool :=
  match i.syncedAt with
  | none => true
  | some t => isoLtDatetimeText t now.minusMinute

/-- A product as serialized for `POST /sync/push`. -/
structure PushedProduct where
  mongoId : Option String
  id : Nat
  name : String
  costPrice : Nat
  sellingPrice : Nat
  quantity : Nat
  lowStockLevel : Nat
  createdAt : Ts
deriving Repr, DecidableEq

/-- An invoice item as serialized for the push payload. -/
structure PushedItem where
  productId : Option Nat
  productName : String
  quantity : Nat
  price : Nat
deriving Repr, DecidableEq

/-- An invoice as serialized for the push payload. -/
structure PushedInvoice where
  mongoId : Option String
  id : Nat
  totalAmount : Nat
  totalItems : Nat
  createdAt : Ts
  items : List PushedItem
deriving Repr, DecidableEq

/-- The body of `POST /sync/push` (the device id is attribution-only and not
modelled). -/
structure PushPayload where
  products : List PushedProduct
  invoices : List PushedInvoice
deriving Repr, DecidableEq

/-- Product serialization (`productsForApi`). -/
def productForApi (p : Product) : PushedProduct :=
  { mongoId := p.serverId, id := p.id, name := p.name
    costPrice := p.costPrice, sellingPrice := p.sellingPrice
    quantity := p.quantity, lowStockLevel := p.lowStockLevel
    createdAt := p.createdAt }

/-- The denormalized item list for one dirty invoice: `productId` is sent only
when the invoice already has a `serverId`; the product name is joined in
read-only fashion. -/
def itemsForInvoice (db : DB) (inv : Invoice) : List PushedItem :=
  (db.items.filter (fun it => it.invoiceId == inv.id)).map (fun it =>
    { productId := if inv.serverId.isSome then some it.productId else none
      productName :=
        match db.products.find? (fun p => p.id == it.productId) with
        | some p => p.name
        | none => "Unknown"
      quantity := it.quantity
      price := it.price })

/-- Invoice serialization (`invoicesWithItems`). -/
def invoiceForApi (db : DB) (inv : Invoice) : PushedInvoice :=
  { mongoId := inv.serverId, id := inv.id
    totalAmount := inv.totalAmount, totalItems := inv.totalItems
    createdAt := inv.createdAt
    items := itemsForInvoice db inv }

/-- The full push payload: exactly the dirty rows, serialized. -/
def buildPushPayload (now : Ts) (db : DB) : PushPayload :=
  { products := (db.products.filter (fun p => dirtyProduct now p)).map productForApi
    invoices := (db.invoices.filter (fun i => dirtyInvoice now i)).map (invoiceForApi db) }

/-- A record of the server's push response; the write-back only reads
`_id || id` and the passed-through local numeric `id`. -/
structure RespRecord where
  mongoId : Option String
  id : Nat
deriving Repr, DecidableEq

/-- `product._id || product.id` of the write-back: never NULL, since the local
id is always carried through. -/
def RespRecord.effSid (r : RespRecord) : String :=
  match r.mongoId with
  | some s => s
  | none => toString r.id

/-- The `POST /sync/push` response body. -/
structure PushResponse where
  products : List RespRecord
  invoices : List RespRecord
deriving Repr, DecidableEq

/-- `UPDATE products SET syncedAt = ?, serverId = ? WHERE id = ?` for one
response record. -/
def applyRespProduct (now : Ts) (ps : List Product) (rec : RespRecord) :
    List Product :=
  ps.map (fun p =>
    if p.id = rec.id then
      { p with syncedAt := some now, serverId := some rec.effSid }
    else p)

/-- `UPDATE invoices SET syncedAt = ?, serverId = ? WHERE id = ?`. -/
def applyRespInvoice (now : Ts) (is : List Invoice) (rec : RespRecord) :
    List Invoice :=
  is.map (fun i =>
    if i.id = rec.id then
      { i with syncedAt := some now, serverId := some rec.effSid }
    else i)

/-- The write-back transaction of `pushToServer`. -/
def applyPushResponse (now : Ts) (resp : PushResponse) (db : DB) : DB :=
  { db with
    products := resp.products.foldl (applyRespProduct now) db.products
    invoices := resp.invoices.foldl (applyRespInvoice now) db.invoices }

/-- Outcome of the network call. -/
inductive NetResult where
  | ok (resp : PushResponse)
  | netError (msg : String)

/-- `pushToServer`: select the dirty rows at invocation time `tQuery`, build
the payload, post it, and on success stamp the write-back at time `tWrite`.
The result is the final local store together with the outcome surfaced to the
caller; before the network call the source only reads the store, so on a
network error the store is returned untouched. -/
def pushToServer (tQuery tWrite : Ts) (net : PushPayload → NetResult) (db : DB) :
    DB × Except String Unit :=
  match net (buildPushPayload tQuery db) with
  | .netError m => (db, .error ("Failed to push to server: " ++ m))
  | .ok resp => (applyPushResponse tWrite resp db, .ok ())

/-! ### The web local-store adapter's transaction (`database.web.ts`)

`runAsync` executes one statement and then unconditionally persists the whole
database to IndexedDB (`saveDb`).  `withTransactionAsync` runs the callback
and, if it throws, reloads the database from IndexedDB before rethrowing. -/

/-- The web adapter's state: the in-memory sql.js database and the copy last
persisted to IndexedDB. -/
structure WebStore where
  mem : DB
  saved : DB
deriving Repr, DecidableEq

/-- One statement of a transaction body: either a successful statement
(modelled by its effect on the store) or one whose `stmt.step()` throws. -/
inductive TxStep where
  | stmt (f : DB → DB)
  | failing

/-- Run the statements of a transaction body in order; `runAsync` persists
after every statement.  An error carries the store at failure time. -/
def runTxSteps : WebStore → List TxStep → Except WebStore WebStore
  | ws, [] => .ok ws
  | ws, .stmt f :: rest =>
      let m := f ws.mem
      runTxSteps ⟨m, m⟩ rest
  | ws, .failing :: _ => .error ws

/-- `withTransactionAsync` of `database.web.ts`: on success save once more; on
failure reload the in-memory database from the IndexedDB copy and report the
error (`false`). -/
def withTransactionAsyncWeb (ws : WebStore) (steps : List TxStep) :
    WebStore × Bool :=
  match runTxSteps ws steps with
  | .ok ws' => (⟨ws'.mem, ws'.mem⟩, true)
  | .error wsf => (⟨wsf.saved, wsf.saved⟩, false)

/-! ### Spec-side predicates and analysis definitions -/

/-- The specification's dirty predicate: `syncedAt` absent, or denoting an
instant more than one minute before now. -/
def specDirtyProduct (now : Ts) (p : Product) : Prop :=
  p.syncedAt = none ∨ ∃ t, p.syncedAt = some t ∧ t.instant + 60 < now.instant

/-- The uniqueness invariant of the spec: at most one local product row
carries any given non-null `serverId`. -/
def uniqueServerIds (ps : List Product) : Prop :=
  ps.Pairwise (fun p q => p.serverId = none ∨ p.serverId ≠ q.serverId)

instance (ps : List Product) : Decidable (uniqueServerIds ps) := by
  unfold uniqueServerIds; infer_instance

/-- The first local product row matching a server record on stored `serverId`
alone (the spec's rule (a)). -/
def firstSidMatchP (sp : ServerProduct) (ps : List Product) : Option Product :=
  match sp.effSid with
  | some s => ps.find? (fun p => p.serverId == some s)
  | none => none

/-- The first local product row matching a server record on local `id` alone
(the spec's rule (b)). -/
def firstIdMatchP (sp : ServerProduct) (ps : List Product) : Option Product :=
  match sp.id with
  | some n => ps.find? (fun p => p.id == n)
  | none => none

/-- Modelled from the spec: identity resolution that checks rule (a) exact
`serverId` match first, and only on failure falls back to rule (b) local-id
match.  Compared against the single OR-query of the source. -/
def specResolveProduct (sp : ServerProduct) (ps : List Product) :
    Option Product :=
  match firstSidMatchP sp ps with
  | some r => some r
  | none => firstIdMatchP sp ps

/-- The pointwise effect of the push write-back on one product row: folds the
response records, each stamping the row when its passed-through id matches. -/
def applyRecsToProduct (now : Ts) (recs : List RespRecord) (p : Product) :
    Product :=
  recs.foldl
    (fun q rec =>
      if q.id = rec.id then
        { q with syncedAt := some now, serverId := some rec.effSid }
      else q) p

/-- The pointwise effect of the push write-back on one invoice row. -/
def applyRecsToInvoice (now : Ts) (recs : List RespRecord) (i : Invoice) :
    Invoice :=
  recs.foldl
    (fun q rec =>
      if q.id = rec.id then
        { q with syncedAt := some now, serverId := some rec.effSid }
      else q) i

/-- The local row a pull product record writes: the first row matched by the
upsert query, or the freshly assigned autoincrement id. -/
def productTargetId (db : DB) (sp : ServerProduct) : Nat :=
  match db.products.find? (fun p => matchesProduct sp p) with
  | some r => r.id
  | none => db.nextProductId

/-- The local row ids the records of the pull product loop write, in order. -/
def productTargets (now : Ts) : DB → List ServerProduct → List Nat
  | _, [] => []
  | db, sp :: rest =>
      productTargetId db sp :: productTargets now (pullProductStep now db sp) rest

/-- Safety of a pull product batch: every record carries a server identifier,
the identifiers are pairwise distinct, and no two records write the same local
row. -/
def safeProducts (now : Ts) (db : DB) (l : List ServerProduct) : Prop :=
  (∀ sp ∈ l, sp.effSid.isSome = true) ∧
  (l.map ServerProduct.effSid).Nodup ∧
  (productTargets now db l).Nodup

instance (now : Ts) (db : DB) (l : List ServerProduct) :
    Decidable (safeProducts now db l) := by
  unfold safeProducts; infer_instance

/-- The local row a pull invoice record writes. -/
def invoiceTargetId (db : DB) (sv : ServerInvoice) : Nat :=
  match db.invoices.find? (fun i => matchesInvoice sv i) with
  | some r => r.id
  | none => db.nextInvoiceId

/-- The local row ids the records of the pull invoice loop write, in order. -/
def invoiceTargets (now : Ts) : DB → List ServerInvoice → List Nat
  | _, [] => []
  | db, sv :: rest =>
      invoiceTargetId db sv :: invoiceTargets now (pullInvoiceStep now db sv) rest

/-- Safety of a pull invoice batch (mirror of `safeProducts`). -/
def safeInvoices (now : Ts) (db : DB) (l : List ServerInvoice) : Prop :=
  (∀ sv ∈ l, sv.effSid.isSome = true) ∧
  (l.map ServerInvoice.effSid).Nodup ∧
  (invoiceTargets now db l).Nodup

instance (now : Ts) (db : DB) (l : List ServerInvoice) :
    Decidable (safeInvoices now db l) := by
  unfold safeInvoices; infer_instance

/-- Safety of a whole pull: both batches are safe (the invoice batch against
the state the product loop leaves). -/
def pullSafe (now : Ts) (db : DB) (snap : Snapshot) : Prop :=
  safeProducts now db snap.products ∧
  safeInvoices now (pullProducts now db snap.products) snap.invoices

instance (now : Ts) (db : DB) (snap : Snapshot) :
    Decidable (pullSafe now db snap) := by
  unfold pullSafe; infer_instance

/-- A server product record is absorbed by a product table at row `t`: the
upsert query's first match is row `t`, that row already carries exactly what
the record writes, and no other row shares its id.  A pull step of the record
leaves such a table unchanged. -/
def absorbedP (now : Ts) (ps : List Product) (sp : ServerProduct) (t : Nat) :
    Prop :=
  ∃ r, ps.find? (fun p => matchesProduct sp p) = some r ∧ r.id = t ∧
    writeProduct now sp r = r ∧ ∀ q ∈ ps, q.id = r.id → q = r

/-- A server invoice record is absorbed by an invoice table at row `t`. -/
def absorbedI (now : Ts) (is : List Invoice) (sv : ServerInvoice) (t : Nat) :
    Prop :=
  ∃ r, is.find? (fun i => matchesInvoice sv i) = some r ∧ r.id = t ∧
    writeInvoice now sv r = r ∧ ∀ q ∈ is, q.id = r.id → q = r

/-- The item-replacement operations a pull invoice loop performs: for each
record embedding an item list whose local invoice id resolves, the resolved
local id together with the fresh item rows inserted for it. -/
def invOps (now : Ts) : DB → List ServerInvoice → List (Nat × List InvoiceItem)
  | _, [] => []
  | db, sv :: rest =>
      (match sv.items with
       | none => []
       | some its =>
           match pullInvoiceLid now db sv with
           | none => []
           | some lid => [(lid, resolveItems db.products lid its)]) ++
      invOps now (pullInvoiceStep now db sv) rest

/-- The item-replacement operations, computed from a fixed product table and a
precomputed target list. -/
def opsFromTargets (now : Ts) (P : List Product) :
    List ServerInvoice → List Nat → List (Nat × List InvoiceItem)
  | [], _ => []
  | _ :: _, [] => []
  | sv :: xs, t :: ts =>
      (match sv.items with
       | none => []
       | some its => [(t, resolveItems P t its)]) ++
      opsFromTargets now P xs ts

/-- Stepwise safety of one pull product record for the `serverId` uniqueness
invariant: any current holder of the record's server identifier is the row the
upsert query selects. -/
def noStealP (db : DB) (sp : ServerProduct) : Bool :=
  match sp.effSid with
  | none => true
  | some s =>
      db.products.all (fun q =>
        q.serverId != some s ||
        (db.products.find? (fun p => matchesProduct sp p) == some q))

/-- Stepwise safety of a whole pull product batch for uniqueness. -/
def noStealAllP (now : Ts) : DB → List ServerProduct → Bool
  | _, [] => true
  | db, sp :: rest =>
      noStealP db sp && noStealAllP now (pullProductStep now db sp) rest

/-- Stepwise safety of the push write-back for uniqueness: no row other than
the addressed one already carries the server identifier a response record
stamps. -/
def respSafeP (now : Ts) : List Product → List RespRecord → Bool
  | _, [] => true
  | ps, rec :: rest =>
      ps.all (fun q => q.serverId != some rec.effSid || q.id == rec.id) &&
      respSafeP now (applyRespProduct now ps rec) rest

/-- An invoice item of the pulled snapshot whose product reference resolves
against a product table. -/
def resolvableAgainst (ps : List Product) (it : ServerItem) : Bool :=
  (resolveProductRef ps it.productRef).isSome

/-- A server invoice with its unresolvable items dropped. -/
def filterResolvable (ps : List Product) (sv : ServerInvoice) : ServerInvoice :=
  { sv with items := sv.items.map (fun its => its.filter (resolvableAgainst ps)) }

/-- The snapshot with every item dropped whose product reference resolves to
no local product (resolution being against the product table as the product
loop leaves it, i.e. including products of the same pull batch). -/
def snapDropUnresolvable (now : Ts) (snap : Snapshot) (db : DB) : Snapshot :=
  { products := snap.products
    invoices := snap.invoices.map
      (filterResolvable (pullProducts now db snap.products).products) }

/-! ### Concrete fixtures for the counterexamples and witnesses -/

/-- 10:00:00 UTC on day 100. -/
def nowFix : Ts := ⟨100, 36000⟩

/-- The empty local store. -/
def dbEmpty : DB :=
  { products := [], invoices := [], items := [], nextProductId := 1
    nextInvoiceId := 1 }

/-- A server product record carrying neither `_id` nor `id`. -/
def spNoId : ServerProduct :=
  { mongoId := none, id := none, name := "A", costPrice := 1, sellingPrice := 2
    quantity := 3, lowStockLevel := 4, createdAt := none }

/-- A snapshot holding only `spNoId`. -/
def snapNoId : Snapshot := { products := [spNoId], invoices := [] }

/-- A local product row with id 7 and no server identifier. -/
def prodSeven : Product :=
  { id := 7, name := "Seven", costPrice := 1, sellingPrice := 1, quantity := 1
    lowStockLevel := 1, createdAt := ⟨1, 0⟩, syncedAt := none, serverId := none }

/-- A local product row with id 9 carrying server identifier "abc". -/
def prodNine : Product :=
  { id := 9, name := "Nine", costPrice := 1, sellingPrice := 1, quantity := 1
    lowStockLevel := 1, createdAt := ⟨1, 0⟩, syncedAt := none
    serverId := some "abc" }

/-- A store holding `prodSeven` and `prodNine`. -/
def dbSevenNine : DB :=
  { products := [prodSeven, prodNine], invoices := [], items := []
    nextProductId := 10, nextInvoiceId := 1 }

/-- A server record carrying `_id = "abc"` and `id = 7`: its server identifier
is held by row 9 while its numeric id matches row 7. -/
def spAbc7 : ServerProduct :=
  { mongoId := some "abc", id := some 7, name := "New", costPrice := 2
    sellingPrice := 2, quantity := 2, lowStockLevel := 2, createdAt := none }

/-- A resolvable local product row with id 1. -/
def prodOne : Product :=
  { id := 1, name := "A", costPrice := 1, sellingPrice := 1, quantity := 1
    lowStockLevel := 1, createdAt := ⟨1, 0⟩, syncedAt := none, serverId := none }

/-- A server invoice carrying neither `_id` nor `id` but embedding one
resolvable item. -/
def svNoId : ServerInvoice :=
  { mongoId := none, id := none, totalAmount := 5, totalItems := 1
    createdAt := ⟨2, 0⟩, items := some [⟨ProdRef.byNum 1, 2, 3⟩] }

/-- A store holding only `prodOne`. -/
def dbProdOne : DB :=
  { products := [prodOne], invoices := [], items := [], nextProductId := 2
    nextInvoiceId := 1 }

/-- A snapshot holding only the id-less invoice. -/
def snapInvNoId : Snapshot := { products := [], invoices := [svNoId] }

/-- A product synced at 08:00:00 UTC of day 100 — two hours before `nowFix`
but on the same UTC date. -/
def prodStale : Product :=
  { id := 1, name := "Rice", costPrice := 1, sellingPrice := 1, quantity := 50
    lowStockLevel := 5, createdAt := ⟨99, 0⟩, syncedAt := some ⟨100, 28800⟩
    serverId := some "srv_1" }

/-- A store holding only the two-hour-stale product. -/
def dbStale : DB :=
  { products := [prodStale], invoices := [], items := [], nextProductId := 2
    nextInvoiceId := 1 }

/-- A never-synced product row, dirty under every reading. -/
def prodUnsynced : Product :=
  { id := 3, name := "Rice", costPrice := 10, sellingPrice := 15, quantity := 50
    lowStockLevel := 5, createdAt := ⟨99, 0⟩, syncedAt := none, serverId := none }

/-- A store holding only the unsynced product. -/
def dbUnsynced : DB :=
  { products := [prodUnsynced], invoices := [], items := [], nextProductId := 4
    nextInvoiceId := 1 }

/-- A push response covering `prodUnsynced` with server id "srv_1". -/
def respSrvOne : PushResponse :=
  { products := [{ mongoId := some "srv_1", id := 3 }], invoices := [] }

/-- The transaction body of a pull applying one product and then failing
(e.g. on a constraint violation of the next statement). -/
def stepsPartial : List TxStep :=
  [TxStep.stmt (fun db => pullProductStep nowFix db spAbc7), TxStep.failing]

/-- A first-sync bootstrap record: server identifier "xyz" stored nowhere
locally, numeric id matching local row 1. -/
def spBootstrap : ServerProduct :=
  { mongoId := some "xyz", id := some 1, name := "A2", costPrice := 1
    sellingPrice := 1, quantity := 1, lowStockLevel := 1, createdAt := none }

/-- A snapshot holding only `spAbc7`. -/
def snapSingleAbc : Snapshot := { products := [spAbc7], invoices := [] }

/-- A snapshot holding only the bootstrap record. -/
def snapBootstrap : Snapshot := { products := [spBootstrap], invoices := [] }

/-- A push response stamping server id "zzz" onto local row 1. -/
def respZzz : PushResponse :=
  { products := [{ mongoId := some "zzz", id := 1 }], invoices := [] }

/-- A server invoice with identifier "inv1" embedding one resolvable item. -/
def svWithItem : ServerInvoice :=
  { mongoId := some "inv1", id := none, totalAmount := 6, totalItems := 2
    createdAt := ⟨2, 0⟩, items := some [⟨ProdRef.byNum 1, 2, 3⟩] }

/-- A safe snapshot: one identified product record, one identified invoice
record embedding one resolvable item. -/
def snapFull : Snapshot :=
  { products := [spBootstrap], invoices := [svWithItem] }

/-! ## Generic list lemmas -/

theorem find?_split {α : Type} (p : α → Bool) {l : List α} {a : α}
    (h : l.find? p = some a) :
    ∃ l1 l2, l = l1 ++ a :: l2 ∧ (∀ x ∈ l1, p x = false) ∧ p a = true := by
  induction l with
  | nil => simp [List.find?] at h
  | cons b bs ih =>
    by_cases hb : p b = true
    · rw [List.find?_cons_of_pos _ hb] at h
      obtain rfl := Option.some.inj h
      exact ⟨[], bs, rfl, by simp, hb⟩
    · rw [List.find?_cons_of_neg _ hb] at h
      obtain ⟨l1, l2, rfl, h1, h2⟩ := ih h
      refine ⟨b :: l1, l2, rfl, ?_, h2⟩
      intro x hx
      rcases List.mem_cons.mp hx with rfl | hx
      · exact Bool.not_eq_true _ ▸ (Bool.eq_false_iff.mpr (fun he => hb he))
      · exact h1 x hx

theorem find?_of_split {α : Type} (p : α → Bool) (l1 l2 : List α) (a : α)
    (h1 : ∀ x ∈ l1, p x = false) (h2 : p a = true) :
    (l1 ++ a :: l2).find? p = some a := by
  induction l1 with
  | nil => simpa using List.find?_cons_of_pos l2 h2
  | cons b bs ih =>
    rw [List.cons_append, List.find?_cons_of_neg]
    · exact ih (fun x hx => h1 x (List.mem_cons_of_mem _ hx))
    · simp [h1 b (List.mem_cons_self _ _)]

theorem find?_append_some {α : Type} (p : α → Bool) {l1 : List α}
    (l2 : List α) {a : α} (h : l1.find? p = some a) :
    (l1 ++ l2).find? p = some a := by
  rw [List.find?_append, h]; rfl

theorem find?_append_none {α : Type} (p : α → Bool) {l1 : List α}
    (l2 : List α) (h : l1.find? p = none) :
    (l1 ++ l2).find? p = l2.find? p := by
  rw [List.find?_append, h]; rfl

theorem filter_eq_self_of_all {α : Type} (p : α → Bool) (l : List α)
    (h : ∀ x ∈ l, p x = true) : l.filter p = l :=
  List.filter_eq_self.mpr h

theorem filter_eq_nil_of_all {α : Type} (p : α → Bool) (l : List α)
    (h : ∀ x ∈ l, p x = false) : l.filter p = [] := by
  induction l with
  | nil => rfl
  | cons b bs ih =>
    rw [List.filter_cons, h b (List.mem_cons_self _ _)]
    exact ih (fun x hx => h x (List.mem_cons_of_mem _ hx))

/-! ## C1 — dirty selection -/

/-- **C1** (code_bug evidence).  The claim says a product whose `syncedAt`
denotes an instant more than one minute before the push is included in the
pushed payload.  `prodStale` was synced two hours before `nowFix` (same UTC
date), so the spec's predicate holds of it, yet the selection predicate the
source executes — a bytewise TEXT comparison of the ISO-format `syncedAt`
against the `datetime()`-format threshold — rejects it and the pushed payload
is empty.  (The claim's other direction is consistent: a row synced ten
seconds before the push is excluded.) -/
theorem c1_dirty_selection_code_bug :
    specDirtyProduct nowFix prodStale ∧
    dirtyProduct nowFix prodStale = false ∧
    (buildPushPayload nowFix dbStale).products = [] ∧
    dirtyProduct nowFix { prodStale with syncedAt := some ⟨100, 35990⟩ } = false := by
  exact ⟨Or.inr ⟨⟨100, 28800⟩, rfl, by decide⟩, by decide, by decide, by decide⟩

/-! ## C7 — transaction atomicity of pull (web adapter) -/

/-- **C7** (code_bug evidence).  The claim says a database failure inside
pull's transaction leaves the local store exactly as it was before the pull.
In the web adapter, `runAsync` persists the whole database after every
statement, so when the second statement of a pull body fails, the rollback
path reloads the copy that already contains the first statement's write: the
transaction reports the error but the store keeps the partially applied
product upsert. -/
theorem c7_web_transaction_keeps_partial_writes :
    (withTransactionAsyncWeb ⟨dbSevenNine, dbSevenNine⟩ stepsPartial).2 = false ∧
    (withTransactionAsyncWeb ⟨dbSevenNine, dbSevenNine⟩ stepsPartial).1.mem =
      pullProductStep nowFix dbSevenNine spAbc7 ∧
    pullProductStep nowFix dbSevenNine spAbc7 ≠ dbSevenNine := by
  exact ⟨rfl, rfl, by decide⟩

/-! ## C8 — network failure of push mutates nothing -/

/-- **C8**.  When the network request of push fails, `pushToServer` raises the
wrapped error and the local store is exactly the one it started from: the
source only reads the store (dirty selection, item denormalization) before the
`POST`, and the write-back transaction is never opened. -/
theorem c8_push_network_failure_no_mutation
    (tQuery tWrite : Ts) (net : PushPayload → NetResult) (db : DB) (m : String)
    (hfail : net (buildPushPayload tQuery db) = NetResult.netError m) :
    pushToServer tQuery tWrite net db =
      (db, Except.error ("Failed to push to server: " ++ m)) := by
  unfold pushToServer
  rw [hfail]

/-- Witness for C8 at a concrete store and an unreachable server. -/
theorem c8_push_network_failure_no_mutation_witness :
    pushToServer nowFix nowFix
        (fun _ => NetResult.netError "Network error: Unable to connect to server")
        dbUnsynced =
      (dbUnsynced,
        Except.error
          ("Failed to push to server: " ++ "Network error: Unable to connect to server")) :=
  c8_push_network_failure_no_mutation nowFix nowFix _ dbUnsynced
    "Network error: Unable to connect to server" rfl

/-! ## The push write-back, pointwise -/

theorem applyRecsToProduct_cons (now : Ts) (rec : RespRecord)
    (recs : List RespRecord) (p : Product) :
    applyRecsToProduct now (rec :: recs) p =
      applyRecsToProduct now recs
        (if p.id = rec.id then
          { p with syncedAt := some now, serverId := some rec.effSid }
         else p) := rfl

theorem foldl_applyRespProduct (now : Ts) (recs : List RespRecord)
    (ps : List Product) :
    recs.foldl (applyRespProduct now) ps = ps.map (applyRecsToProduct now recs) := by
  induction recs generalizing ps with
  | nil => exact (List.map_id'' (fun p => rfl) ps).symm
  | cons rec rest ih =>
    rw [List.foldl_cons, ih]
    unfold applyRespProduct
    rw [List.map_map]
    exact List.map_congr_left (fun p _ => rfl)

theorem applyRecsToProduct_id (now : Ts) (recs : List RespRecord) (p : Product) :
    (applyRecsToProduct now recs p).id = p.id := by
  induction recs generalizing p with
  | nil => rfl
  | cons rec rest ih =>
    rw [applyRecsToProduct_cons, ih]
    by_cases h : p.id = rec.id <;> simp [h]

theorem applyRecsToProduct_frame (now : Ts) (recs : List RespRecord)
    (p : Product) :
    (applyRecsToProduct now recs p).name = p.name ∧
    (applyRecsToProduct now recs p).costPrice = p.costPrice ∧
    (applyRecsToProduct now recs p).sellingPrice = p.sellingPrice ∧
    (applyRecsToProduct now recs p).quantity = p.quantity ∧
    (applyRecsToProduct now recs p).lowStockLevel = p.lowStockLevel ∧
    (applyRecsToProduct now recs p).createdAt = p.createdAt := by
  induction recs generalizing p with
  | nil => exact ⟨rfl, rfl, rfl, rfl, rfl, rfl⟩
  | cons rec rest ih =>
    rw [applyRecsToProduct_cons]
    by_cases h : p.id = rec.id <;> simp only [h, if_pos, if_neg, if_true, if_false] <;>
      exact ih _

theorem applyRecsToProduct_of_not_mem (now : Ts) (recs : List RespRecord)
    (p : Product) (h : ∀ rec ∈ recs, rec.id ≠ p.id) :
    applyRecsToProduct now recs p = p := by
  induction recs with
  | nil => rfl
  | cons rec rest ih =>
    have hne : ¬ p.id = rec.id := fun he => h rec (List.mem_cons_self _ _) he.symm
    rw [applyRecsToProduct_cons, if_neg hne]
    exact ih (fun r hr => h r (List.mem_cons_of_mem _ hr))

theorem applyRecsToProduct_of_mem (now : Ts) (recs : List RespRecord)
    (p : Product) (h : ∃ rec ∈ recs, rec.id = p.id) :
    (applyRecsToProduct now recs p).syncedAt = some now ∧
    (applyRecsToProduct now recs p).serverId.isSome = true := by
  induction recs generalizing p with
  | nil => obtain ⟨rec, hmem, _⟩ := h; exact absurd hmem (List.not_mem_nil _)
  | cons rec rest ih =>
    rw [applyRecsToProduct_cons]
    by_cases hid : p.id = rec.id
    · rw [if_pos hid]
      by_cases hrest : ∃ r ∈ rest, r.id = p.id
      · exact ih _ hrest
      · push_neg at hrest
        rw [applyRecsToProduct_of_not_mem now rest
            { p with syncedAt := some now, serverId := some rec.effSid }
            (fun r hr => hrest r hr)]
        exact ⟨rfl, rfl⟩
    · rw [if_neg hid]
      obtain ⟨rec', hmem, hid'⟩ := h
      rcases List.mem_cons.mp hmem with rfl | hmem'
      · exact absurd hid'.symm hid
      · exact ih p ⟨rec', hmem', hid'⟩

theorem applyRecsToInvoice_cons (now : Ts) (rec : RespRecord)
    (recs : List RespRecord) (i : Invoice) :
    applyRecsToInvoice now (rec :: recs) i =
      applyRecsToInvoice now recs
        (if i.id = rec.id then
          { i with syncedAt := some now, serverId := some rec.effSid }
         else i) := rfl

theorem foldl_applyRespInvoice (now : Ts) (recs : List RespRecord)
    (is : List Invoice) :
    recs.foldl (applyRespInvoice now) is = is.map (applyRecsToInvoice now recs) := by
  induction recs generalizing is with
  | nil => exact (List.map_id'' (fun i => rfl) is).symm
  | cons rec rest ih =>
    rw [List.foldl_cons, ih]
    unfold applyRespInvoice
    rw [List.map_map]
    exact List.map_congr_left (fun i _ => rfl)

theorem applyRecsToInvoice_id (now : Ts) (recs : List RespRecord) (i : Invoice) :
    (applyRecsToInvoice now recs i).id = i.id := by
  induction recs generalizing i with
  | nil => rfl
  | cons rec rest ih =>
    rw [applyRecsToInvoice_cons, ih]
    by_cases h : i.id = rec.id <;> simp [h]

theorem applyRecsToInvoice_frame (now : Ts) (recs : List RespRecord)
    (i : Invoice) :
    (applyRecsToInvoice now recs i).totalAmount = i.totalAmount ∧
    (applyRecsToInvoice now recs i).totalItems = i.totalItems ∧
    (applyRecsToInvoice now recs i).createdAt = i.createdAt := by
  induction recs generalizing i with
  | nil => exact ⟨rfl, rfl, rfl⟩
  | cons rec rest ih =>
    rw [applyRecsToInvoice_cons]
    by_cases h : i.id = rec.id <;> simp only [h, if_pos, if_neg, if_true, if_false] <;>
      exact ih _

theorem applyRecsToInvoice_of_not_mem (now : Ts) (recs : List RespRecord)
    (i : Invoice) (h : ∀ rec ∈ recs, rec.id ≠ i.id) :
    applyRecsToInvoice now recs i = i := by
  induction recs with
  | nil => rfl
  | cons rec rest ih =>
    have hne : ¬ i.id = rec.id := fun he => h rec (List.mem_cons_self _ _) he.symm
    rw [applyRecsToInvoice_cons, if_neg hne]
    exact ih (fun r hr => h r (List.mem_cons_of_mem _ hr))

theorem applyRecsToInvoice_of_mem (now : Ts) (recs : List RespRecord)
    (i : Invoice) (h : ∃ rec ∈ recs, rec.id = i.id) :
    (applyRecsToInvoice now recs i).syncedAt = some now ∧
    (applyRecsToInvoice now recs i).serverId.isSome = true := by
  induction recs generalizing i with
  | nil => obtain ⟨rec, hmem, _⟩ := h; exact absurd hmem (List.not_mem_nil _)
  | cons rec rest ih =>
    rw [applyRecsToInvoice_cons]
    by_cases hid : i.id = rec.id
    · rw [if_pos hid]
      by_cases hrest : ∃ r ∈ rest, r.id = i.id
      · exact ih _ hrest
      · push_neg at hrest
        rw [applyRecsToInvoice_of_not_mem now rest
            { i with syncedAt := some now, serverId := some rec.effSid }
            (fun r hr => hrest r hr)]
        exact ⟨rfl, rfl⟩
    · rw [if_neg hid]
      obtain ⟨rec', hmem, hid'⟩ := h
      rcases List.mem_cons.mp hmem with rfl | hmem'
      · exact absurd hid'.symm hid
      · exact ih i ⟨rec', hmem', hid'⟩

theorem pushToServer_ok (tQuery tWrite : Ts) (net : PushPayload → NetResult)
    (db : DB) (resp : PushResponse)
    (hok : net (buildPushPayload tQuery db) = NetResult.ok resp) :
    pushToServer tQuery tWrite net db = (applyPushResponse tWrite resp db, .ok ()) := by
  unfold pushToServer
  rw [hok]

/-! ## C10 — frame property of the push write-back -/

/-- **C10**.  On a successful push, the write-back maps each product and
invoice row pointwise: only rows whose id appears in the response are touched,
only their `syncedAt` and `serverId` columns change, and the item table and
both autoincrement counters are untouched. -/
theorem c10_push_write_back_frame
    (tQuery tWrite : Ts) (net : PushPayload → NetResult) (db : DB)
    (resp : PushResponse)
    (hok : net (buildPushPayload tQuery db) = NetResult.ok resp) :
    (pushToServer tQuery tWrite net db).1.items = db.items ∧
    (pushToServer tQuery tWrite net db).1.nextProductId = db.nextProductId ∧
    (pushToServer tQuery tWrite net db).1.nextInvoiceId = db.nextInvoiceId ∧
    (pushToServer tQuery tWrite net db).1.products =
      db.products.map (applyRecsToProduct tWrite resp.products) ∧
    (pushToServer tQuery tWrite net db).1.invoices =
      db.invoices.map (applyRecsToInvoice tWrite resp.invoices) ∧
    (∀ p : Product,
      (applyRecsToProduct tWrite resp.products p).id = p.id ∧
      (applyRecsToProduct tWrite resp.products p).name = p.name ∧
      (applyRecsToProduct tWrite resp.products p).costPrice = p.costPrice ∧
      (applyRecsToProduct tWrite resp.products p).sellingPrice = p.sellingPrice ∧
      (applyRecsToProduct tWrite resp.products p).quantity = p.quantity ∧
      (applyRecsToProduct tWrite resp.products p).lowStockLevel = p.lowStockLevel ∧
      (applyRecsToProduct tWrite resp.products p).createdAt = p.createdAt ∧
      (p.id ∉ resp.products.map RespRecord.id →
        applyRecsToProduct tWrite resp.products p = p)) ∧
    (∀ i : Invoice,
      (applyRecsToInvoice tWrite resp.invoices i).id = i.id ∧
      (applyRecsToInvoice tWrite resp.invoices i).totalAmount = i.totalAmount ∧
      (applyRecsToInvoice tWrite resp.invoices i).totalItems = i.totalItems ∧
      (applyRecsToInvoice tWrite resp.invoices i).createdAt = i.createdAt ∧
      (i.id ∉ resp.invoices.map RespRecord.id →
        applyRecsToInvoice tWrite resp.invoices i = i)) := by
  rw [pushToServer_ok tQuery tWrite net db resp hok]
  unfold applyPushResponse
  refine ⟨rfl, rfl, rfl, foldl_applyRespProduct _ _ _, foldl_applyRespInvoice _ _ _,
    fun p => ?_, fun i => ?_⟩
  · obtain ⟨h1, h2, h3, h4, h5, h6⟩ := applyRecsToProduct_frame tWrite resp.products p
    refine ⟨applyRecsToProduct_id _ _ _, h1, h2, h3, h4, h5, h6, fun hnot => ?_⟩
    refine applyRecsToProduct_of_not_mem _ _ _ (fun rec hrec he => hnot ?_)
    exact he ▸ List.mem_map_of_mem RespRecord.id hrec
  · obtain ⟨h1, h2, h3⟩ := applyRecsToInvoice_frame tWrite resp.invoices i
    refine ⟨applyRecsToInvoice_id _ _ _, h1, h2, h3, fun hnot => ?_⟩
    refine applyRecsToInvoice_of_not_mem _ _ _ (fun rec hrec he => hnot ?_)
    exact he ▸ List.mem_map_of_mem RespRecord.id hrec

/-- Witness for C10: a successful push over a store with one dirty product
leaves the item table untouched. -/
theorem c10_push_write_back_frame_witness :
    (pushToServer nowFix nowFix (fun _ => NetResult.ok respSrvOne) dbUnsynced).1.items =
      dbUnsynced.items :=
  (c10_push_write_back_frame nowFix nowFix (fun _ => NetResult.ok respSrvOne)
    dbUnsynced respSrvOne rfl).1

/-! ## C6 — push round-trip postcondition -/

/-- **C6**.  Assuming the server's response carries, for every dirty row of
the selection the push made, a record bearing the passed-through local id,
then after a successful push every such row has a non-null `serverId` and a
`syncedAt` stamped at the write-back time (which is at or after the invocation
time); each response record is applied to the rows whose local numeric id
equals the id it carries.  Dirty here is the selection predicate `push`
executes. -/
theorem c6_push_round_trip
    (tQuery tWrite : Ts) (net : PushPayload → NetResult) (db : DB)
    (resp : PushResponse)
    (hok : net (buildPushPayload tQuery db) = NetResult.ok resp)
    (hts : tQuery.instant ≤ tWrite.instant)
    (hcovP : ∀ p ∈ db.products, dirtyProduct tQuery p = true →
      ∃ rec ∈ resp.products, rec.id = p.id)
    (hcovI : ∀ i ∈ db.invoices, dirtyInvoice tQuery i = true →
      ∃ rec ∈ resp.invoices, rec.id = i.id) :
    (∀ p ∈ db.products, dirtyProduct tQuery p = true →
      ∃ p' ∈ (pushToServer tQuery tWrite net db).1.products,
        p'.id = p.id ∧ p'.serverId.isSome = true ∧
        ∃ t, p'.syncedAt = some t ∧ tQuery.instant ≤ t.instant) ∧
    (∀ i ∈ db.invoices, dirtyInvoice tQuery i = true →
      ∃ i' ∈ (pushToServer tQuery tWrite net db).1.invoices,
        i'.id = i.id ∧ i'.serverId.isSome = true ∧
        ∃ t, i'.syncedAt = some t ∧ tQuery.instant ≤ t.instant) ∧
    (pushToServer tQuery tWrite net db).1.products =
      db.products.map (applyRecsToProduct tWrite resp.products) ∧
    (pushToServer tQuery tWrite net db).1.invoices =
      db.invoices.map (applyRecsToInvoice tWrite resp.invoices) := by
  rw [pushToServer_ok tQuery tWrite net db resp hok]
  unfold applyPushResponse
  refine ⟨fun p hp hdirty => ?_, fun i hi hdirty => ?_,
    foldl_applyRespProduct _ _ _, foldl_applyRespInvoice _ _ _⟩
  · refine ⟨applyRecsToProduct tWrite resp.products p, ?_, ?_, ?_, tWrite, ?_, hts⟩
    · rw [foldl_applyRespProduct]
      exact List.mem_map_of_mem _ hp
    · exact applyRecsToProduct_id _ _ _
    · exact (applyRecsToProduct_of_mem _ _ _ (hcovP p hp hdirty)).2
    · exact (applyRecsToProduct_of_mem _ _ _ (hcovP p hp hdirty)).1
  · refine ⟨applyRecsToInvoice tWrite resp.invoices i, ?_, ?_, ?_, tWrite, ?_, hts⟩
    · rw [foldl_applyRespInvoice]
      exact List.mem_map_of_mem _ hi
    · exact applyRecsToInvoice_id _ _ _
    · exact (applyRecsToInvoice_of_mem _ _ _ (hcovI i hi hdirty)).2
    · exact (applyRecsToInvoice_of_mem _ _ _ (hcovI i hi hdirty)).1

/-- Witness for C6: the end-to-end scenario of the spec — one unsynced
product, the server answers with `srv_1` tagged to the local row. -/
theorem c6_push_round_trip_witness :
    (∀ p ∈ dbUnsynced.products, dirtyProduct nowFix p = true →
      ∃ p' ∈ (pushToServer nowFix nowFix (fun _ => NetResult.ok respSrvOne) dbUnsynced).1.products,
        p'.id = p.id ∧ p'.serverId.isSome = true ∧
        ∃ t, p'.syncedAt = some t ∧ nowFix.instant ≤ t.instant) ∧
    (∀ i ∈ dbUnsynced.invoices, dirtyInvoice nowFix i = true →
      ∃ i' ∈ (pushToServer nowFix nowFix (fun _ => NetResult.ok respSrvOne) dbUnsynced).1.invoices,
        i'.id = i.id ∧ i'.serverId.isSome = true ∧
        ∃ t, i'.syncedAt = some t ∧ nowFix.instant ≤ t.instant) ∧
    (pushToServer nowFix nowFix (fun _ => NetResult.ok respSrvOne) dbUnsynced).1.products =
      dbUnsynced.products.map (applyRecsToProduct nowFix respSrvOne.products) ∧
    (pushToServer nowFix nowFix (fun _ => NetResult.ok respSrvOne) dbUnsynced).1.invoices =
      dbUnsynced.invoices.map (applyRecsToInvoice nowFix respSrvOne.invoices) :=
  c6_push_round_trip nowFix nowFix (fun _ => NetResult.ok respSrvOne) dbUnsynced
    respSrvOne rfl (Nat.le_refl _) (by decide) (by decide)

/-! ## The upsert match predicate, componentwise -/

theorem matchesProduct_false (sp : ServerProduct) (p : Product)
    (hs : ∀ s, sp.effSid = some s → (p.serverId == some s) = false)
    (hn : ∀ n, sp.id = some n → (p.id == n) = false) :
    matchesProduct sp p = false := by
  unfold matchesProduct
  cases h1 : sp.effSid with
  | none =>
    cases h2 : sp.id with
    | none => rfl
    | some n => simp [hn n h2]
  | some s =>
    cases h2 : sp.id with
    | none => simp [hs s h1]
    | some n => simp [hs s h1, hn n h2]

theorem matchesProduct_of_sid (sp : ServerProduct) (p : Product) (s : String)
    (h1 : sp.effSid = some s) (h2 : (p.serverId == some s) = true) :
    matchesProduct sp p = true := by
  unfold matchesProduct
  rw [h1]
  simp [h2]

theorem matchesProduct_of_id (sp : ServerProduct) (p : Product) (n : Nat)
    (h1 : sp.id = some n) (h2 : (p.id == n) = true) :
    matchesProduct sp p = true := by
  unfold matchesProduct
  rw [h1]
  cases sp.effSid <;> simp [h2]

theorem matchesInvoice_false (sv : ServerInvoice) (i : Invoice)
    (hs : ∀ s, sv.effSid = some s → (i.serverId == some s) = false)
    (hn : ∀ n, sv.id = some n → (i.id == n) = false) :
    matchesInvoice sv i = false := by
  unfold matchesInvoice
  cases h1 : sv.effSid with
  | none =>
    cases h2 : sv.id with
    | none => rfl
    | some n => simp [hn n h2]
  | some s =>
    cases h2 : sv.id with
    | none => simp [hs s h1]
    | some n => simp [hs s h1, hn n h2]

theorem matchesInvoice_of_sid (sv : ServerInvoice) (i : Invoice) (s : String)
    (h1 : sv.effSid = some s) (h2 : (i.serverId == some s) = true) :
    matchesInvoice sv i = true := by
  unfold matchesInvoice
  rw [h1]
  simp [h2]

/-! ## Component lemmas: what each loop leaves untouched -/

theorem pullProductStep_invoices (now : Ts) (db : DB) (sp : ServerProduct) :
    (pullProductStep now db sp).invoices = db.invoices := by
  unfold pullProductStep
  cases db.products.find? (fun p => matchesProduct sp p) <;> rfl

theorem pullProductStep_items (now : Ts) (db : DB) (sp : ServerProduct) :
    (pullProductStep now db sp).items = db.items := by
  unfold pullProductStep
  cases db.products.find? (fun p => matchesProduct sp p) <;> rfl

theorem pullProductStep_nextInvoiceId (now : Ts) (db : DB) (sp : ServerProduct) :
    (pullProductStep now db sp).nextInvoiceId = db.nextInvoiceId := by
  unfold pullProductStep
  cases db.products.find? (fun p => matchesProduct sp p) <;> rfl

theorem pullProducts_invoices (now : Ts) (db : DB) (l : List ServerProduct) :
    (pullProducts now db l).invoices = db.invoices := by
  induction l generalizing db with
  | nil => rfl
  | cons sp rest ih =>
    show (pullProducts now (pullProductStep now db sp) rest).invoices = db.invoices
    rw [ih, pullProductStep_invoices]

theorem pullProducts_items (now : Ts) (db : DB) (l : List ServerProduct) :
    (pullProducts now db l).items = db.items := by
  induction l generalizing db with
  | nil => rfl
  | cons sp rest ih =>
    show (pullProducts now (pullProductStep now db sp) rest).items = db.items
    rw [ih, pullProductStep_items]

theorem pullProducts_nextInvoiceId (now : Ts) (db : DB) (l : List ServerProduct) :
    (pullProducts now db l).nextInvoiceId = db.nextInvoiceId := by
  induction l generalizing db with
  | nil => rfl
  | cons sp rest ih =>
    show (pullProducts now (pullProductStep now db sp) rest).nextInvoiceId =
      db.nextInvoiceId
    rw [ih, pullProductStep_nextInvoiceId]

theorem pullInvoiceUpsert_products (now : Ts) (db : DB) (sv : ServerInvoice) :
    (pullInvoiceUpsert now db sv).products = db.products := by
  unfold pullInvoiceUpsert
  cases db.invoices.find? (fun i => matchesInvoice sv i) <;> rfl

theorem pullInvoiceUpsert_items (now : Ts) (db : DB) (sv : ServerInvoice) :
    (pullInvoiceUpsert now db sv).items = db.items := by
  unfold pullInvoiceUpsert
  cases db.invoices.find? (fun i => matchesInvoice sv i) <;> rfl

theorem pullInvoiceUpsert_nextProductId (now : Ts) (db : DB) (sv : ServerInvoice) :
    (pullInvoiceUpsert now db sv).nextProductId = db.nextProductId := by
  unfold pullInvoiceUpsert
  cases db.invoices.find? (fun i => matchesInvoice sv i) <;> rfl

theorem pullInvoiceStep_products (now : Ts) (db : DB) (sv : ServerInvoice) :
    (pullInvoiceStep now db sv).products = db.products := by
  unfold pullInvoiceStep
  cases sv.items with
  | none => exact pullInvoiceUpsert_products now db sv
  | some its =>
    cases pullInvoiceLid now db sv with
    | none => exact pullInvoiceUpsert_products now db sv
    | some lid => exact pullInvoiceUpsert_products now db sv

theorem pullInvoiceStep_nextProductId (now : Ts) (db : DB) (sv : ServerInvoice) :
    (pullInvoiceStep now db sv).nextProductId = db.nextProductId := by
  unfold pullInvoiceStep
  cases sv.items with
  | none => exact pullInvoiceUpsert_nextProductId now db sv
  | some its =>
    cases pullInvoiceLid now db sv with
    | none => exact pullInvoiceUpsert_nextProductId now db sv
    | some lid => exact pullInvoiceUpsert_nextProductId now db sv

theorem pullInvoiceStep_invoices (now : Ts) (db : DB) (sv : ServerInvoice) :
    (pullInvoiceStep now db sv).invoices = (pullInvoiceUpsert now db sv).invoices := by
  unfold pullInvoiceStep
  cases sv.items with
  | none => rfl
  | some its =>
    cases pullInvoiceLid now db sv with
    | none => rfl
    | some lid => rfl

theorem pullInvoiceStep_nextInvoiceId (now : Ts) (db : DB) (sv : ServerInvoice) :
    (pullInvoiceStep now db sv).nextInvoiceId =
      (pullInvoiceUpsert now db sv).nextInvoiceId := by
  unfold pullInvoiceStep
  cases sv.items with
  | none => rfl
  | some its =>
    cases pullInvoiceLid now db sv with
    | none => rfl
    | some lid => rfl

theorem pullInvoices_products (now : Ts) (db : DB) (l : List ServerInvoice) :
    (pullInvoices now db l).products = db.products := by
  induction l generalizing db with
  | nil => rfl
  | cons sv rest ih =>
    show (pullInvoices now (pullInvoiceStep now db sv) rest).products = db.products
    rw [ih, pullInvoiceStep_products]

theorem pullInvoices_nextProductId (now : Ts) (db : DB) (l : List ServerInvoice) :
    (pullInvoices now db l).nextProductId = db.nextProductId := by
  induction l generalizing db with
  | nil => rfl
  | cons sv rest ih =>
    show (pullInvoices now (pullInvoiceStep now db sv) rest).nextProductId =
      db.nextProductId
    rw [ih, pullInvoiceStep_nextProductId]

/-! ## C4 — identity resolution order -/

/-- **C4** (counterexample).  Against `dbSevenNine`, the record `spAbc7`
carries server identifier "abc" — held by local row 9 — and numeric id 7.  The
spec's in-order resolution picks row 9, but the source's single OR-query scans
in table order and picks row 7: after the step, row 7 received the update and
the serverId, while row 9 kept its stale fields. -/
theorem c4_resolution_order_counterexample :
    firstSidMatchP spAbc7 dbSevenNine.products = some prodNine ∧
    specResolveProduct spAbc7 dbSevenNine.products = some prodNine ∧
    (pullProductStep nowFix dbSevenNine spAbc7).products.map
        (fun p => (p.id, p.name, p.serverId)) =
      [(7, "New", some "abc"), (9, "Nine", some "abc")] := by
  exact ⟨by decide, by decide, by decide⟩

/-- **C4** (amended).  The row updated is the first row in table order
matching either rule of the single OR-query, with no priority between the
rules.  In particular: when no row matches on `serverId` and some row matches
on local id, that first id-match receives the update and the attached
`serverId` (bootstrap matching); when no row matches on local id and some row
matches on `serverId`, that first `serverId`-match is updated; when neither
rule matches, a fresh row is inserted. -/
theorem c4_resolution_amended (now : Ts) (db : DB) (sp : ServerProduct) :
    (db.products.find? (fun p => matchesProduct sp p) = none →
      pullProductStep now db sp =
        { db with
          products := db.products ++ [insertProduct now sp db.nextProductId]
          nextProductId := db.nextProductId + 1 }) ∧
    (∀ r, db.products.find? (fun p => matchesProduct sp p) = some r →
      pullProductStep now db sp =
        { db with
          products := db.products.map
            (fun q => if q.id = r.id then writeProduct now sp q else q) } ∧
      (writeProduct now sp r).serverId = sp.effSid) ∧
    (∀ r, firstSidMatchP sp db.products = none →
      firstIdMatchP sp db.products = some r →
      db.products.find? (fun p => matchesProduct sp p) = some r) ∧
    (∀ r, firstSidMatchP sp db.products = some r →
      firstIdMatchP sp db.products = none →
      db.products.find? (fun p => matchesProduct sp p) = some r) ∧
    (firstSidMatchP sp db.products = none → firstIdMatchP sp db.products = none →
      db.products.find? (fun p => matchesProduct sp p) = none) := by
  have hsid_none : ∀ (h : firstSidMatchP sp db.products = none) (p : Product),
      p ∈ db.products → ∀ s, sp.effSid = some s → (p.serverId == some s) = false := by
    intro h p hp s hs
    unfold firstSidMatchP at h
    rw [hs] at h
    have := List.find?_eq_none.mp h p hp
    exact Bool.eq_false_iff.mpr this
  have hid_none : ∀ (h : firstIdMatchP sp db.products = none) (p : Product),
      p ∈ db.products → ∀ n, sp.id = some n → (p.id == n) = false := by
    intro h p hp n hn
    unfold firstIdMatchP at h
    rw [hn] at h
    have := List.find?_eq_none.mp h p hp
    exact Bool.eq_false_iff.mpr this
  refine ⟨?_, ?_, ?_, ?_, ?_⟩
  · intro hnone
    unfold pullProductStep
    rw [hnone]
  · intro r hsome
    unfold pullProductStep
    rw [hsome]
    exact ⟨rfl, rfl⟩
  · intro r hno_sid hid
    unfold firstIdMatchP at hid
    cases hn : sp.id with
    | none => rw [hn] at hid; exact absurd hid (by simp)
    | some n =>
      rw [hn] at hid
      obtain ⟨l1, l2, heq, h1, h2⟩ := find?_split _ hid
      rw [heq]
      refine find?_of_split _ l1 l2 r ?_ ?_
      · intro x hx
        refine matchesProduct_false sp x ?_ ?_
        · intro s hs
          exact hsid_none hno_sid x (by rw [heq]; exact List.mem_append_left _ hx) s hs
        · intro n' hn'
          rw [hn] at hn'
          obtain rfl := Option.some.inj hn'
          exact h1 x hx
      · exact matchesProduct_of_id sp r n hn h2
  · intro r hsid hno_id
    unfold firstSidMatchP at hsid
    cases hs : sp.effSid with
    | none => rw [hs] at hsid; exact absurd hsid (by simp)
    | some s =>
      rw [hs] at hsid
      obtain ⟨l1, l2, heq, h1, h2⟩ := find?_split _ hsid
      rw [heq]
      refine find?_of_split _ l1 l2 r ?_ ?_
      · intro x hx
        refine matchesProduct_false sp x ?_ ?_
        · intro s' hs'
          rw [hs] at hs'
          obtain rfl := Option.some.inj hs'
          exact h1 x hx
        · intro n hn
          exact hid_none hno_id x (by rw [heq]; exact List.mem_append_left _ hx) n hn
      · exact matchesProduct_of_sid sp r s hs h2
  · intro hno_sid hno_id
    refine List.find?_eq_none.mpr (fun p hp => ?_)
    have : matchesProduct sp p = false :=
      matchesProduct_false sp p (hsid_none hno_sid p hp) (hid_none hno_id p hp)
    simp [this]

/-- Witness for C4 amended: the bootstrap record `spBootstrap` resolves to the
existing row 1 of `dbProdOne` by id fallback. -/
theorem c4_resolution_amended_witness :
    dbProdOne.products.find? (fun p => matchesProduct spBootstrap p) =
      some prodOne :=
  (c4_resolution_amended nowFix dbProdOne spBootstrap).2.2.1 prodOne
    (by decide) (by decide)

/-! ## C9 — unresolvable items are skipped -/

theorem filterMap_filter_keep {α β : Type} (g : α → Option β) (p : α → Bool)
    (l : List α) (hp : ∀ a, p a = (g a).isSome) :
    (l.filter p).filterMap g = l.filterMap g := by
  induction l with
  | nil => rfl
  | cons a l ih =>
    by_cases h : (g a).isSome = true
    · obtain ⟨b, hb⟩ := Option.isSome_iff_exists.mp h
      rw [List.filter_cons, hp a, h, if_pos rfl, List.filterMap_cons_some hb,
        List.filterMap_cons_some hb, ih]
    · have hb : g a = none := Option.not_isSome_iff_eq_none.mp h
      have h' : (g a).isSome = false := by rw [hb]; rfl
      rw [List.filter_cons, hp a, h']
      simp only [Bool.false_eq_true, if_false]
      rw [List.filterMap_cons_none hb, ih]

theorem resolveItems_filterResolvable (ps : List Product) (lid : Nat)
    (its : List ServerItem) :
    resolveItems ps lid (its.filter (resolvableAgainst ps)) =
      resolveItems ps lid its := by
  unfold resolveItems
  refine filterMap_filter_keep _ _ _ (fun it => ?_)
  unfold resolvableAgainst
  cases resolveProductRef ps it.productRef <;> rfl

theorem pullInvoiceStep_filterResolvable (now : Ts) (db : DB)
    (sv : ServerInvoice) (P : List Product) (hP : db.products = P) :
    pullInvoiceStep now db (filterResolvable P sv) = pullInvoiceStep now db sv := by
  have hup : pullInvoiceUpsert now db (filterResolvable P sv) =
      pullInvoiceUpsert now db sv := rfl
  have hlid : pullInvoiceLid now db (filterResolvable P sv) =
      pullInvoiceLid now db sv := rfl
  unfold pullInvoiceStep
  rw [hup, hlid]
  have hitems : (filterResolvable P sv).items =
      sv.items.map (fun its => its.filter (resolvableAgainst P)) := rfl
  rw [hitems]
  cases hits : sv.items with
  | none => rfl
  | some its =>
    simp only [Option.map_some']
    cases hlid2 : pullInvoiceLid now db sv with
    | none => rfl
    | some lid =>
      have hres : resolveItems (pullInvoiceUpsert now db sv).products lid
          (its.filter (resolvableAgainst P)) =
          resolveItems (pullInvoiceUpsert now db sv).products lid its := by
        rw [pullInvoiceUpsert_products, hP]
        exact resolveItems_filterResolvable P lid its
      dsimp only
      rw [hres]

theorem pullInvoices_filterResolvable (now : Ts) (P : List Product) (db : DB)
    (hP : db.products = P) (l : List ServerInvoice) :
    pullInvoices now db (l.map (filterResolvable P)) = pullInvoices now db l := by
  induction l generalizing db with
  | nil => rfl
  | cons sv rest ih =>
    show pullInvoices now (pullInvoiceStep now db (filterResolvable P sv))
        (rest.map (filterResolvable P)) =
      pullInvoices now (pullInvoiceStep now db sv) rest
    rw [pullInvoiceStep_filterResolvable now db sv P hP]
    exact ih _ (by rw [pullInvoiceStep_products, hP])

/-- **C9**.  Dropping from the snapshot every invoice item whose product
reference resolves to no local product — resolution being against the product
table as the product loop leaves it, so a product absent both locally and from
the pull batch — yields the same final local store: the unresolvable items are
silently skipped, and every other product, invoice and item of the snapshot is
still applied exactly as before.  In particular pull completes without
raising. -/
theorem c9_unresolvable_items_skipped (now : Ts) (snap : Snapshot) (db : DB) :
    pullFromServer now (snapDropUnresolvable now snap db) db =
      pullFromServer now snap db := by
  unfold pullFromServer snapDropUnresolvable
  exact pullInvoices_filterResolvable now _ _ rfl snap.invoices

/-! ## The product loop: stability of applied records -/

theorem pullProductStep_match (now : Ts) (db : DB) (sp : ServerProduct)
    (r : Product) (h : db.products.find? (fun p => matchesProduct sp p) = some r) :
    pullProductStep now db sp =
      { db with
        products := db.products.map
          (fun q => if q.id = r.id then writeProduct now sp q else q) } := by
  unfold pullProductStep
  rw [h]

theorem pullProductStep_insert (now : Ts) (db : DB) (sp : ServerProduct)
    (h : db.products.find? (fun p => matchesProduct sp p) = none) :
    pullProductStep now db sp =
      { db with
        products := db.products ++ [insertProduct now sp db.nextProductId]
        nextProductId := db.nextProductId + 1 } := by
  unfold pullProductStep
  rw [h]

theorem writeProduct_id (now : Ts) (sp : ServerProduct) (p : Product) :
    (writeProduct now sp p).id = p.id := rfl

theorem writeProduct_idem (now : Ts) (sp : ServerProduct) (p : Product) :
    writeProduct now sp (writeProduct now sp p) = writeProduct now sp p := rfl

theorem writeProduct_insertProduct (now : Ts) (sp : ServerProduct) (nid : Nat) :
    writeProduct now sp (insertProduct now sp nid) = insertProduct now sp nid := rfl

theorem matchesProduct_sid_part (sp : ServerProduct) (x : Product) (s : String)
    (hs : sp.effSid = some s) (h : matchesProduct sp x = false) :
    (x.serverId == some s) = false := by
  unfold matchesProduct at h
  rw [hs] at h
  cases hn : sp.id with
  | none =>
    rw [hn] at h
    dsimp only at h
    simpa using h
  | some n =>
    rw [hn] at h
    dsimp only at h
    exact (Bool.or_eq_false_iff.mp h).1

theorem matchesProduct_id_part (sp : ServerProduct) (x : Product) (n : Nat)
    (hn : sp.id = some n) (h : matchesProduct sp x = false) :
    (x.id == n) = false := by
  unfold matchesProduct at h
  rw [hn] at h
  cases hs : sp.effSid with
  | none =>
    rw [hs] at h
    dsimp only at h
    simpa using h
  | some s =>
    rw [hs] at h
    dsimp only at h
    exact (Bool.or_eq_false_iff.mp h).2

theorem productIdsOk_step (now : Ts) (db : DB) (sp : ServerProduct)
    (h : productIdsOk db) : productIdsOk (pullProductStep now db sp) := by
  obtain ⟨hb, hn⟩ := h
  cases hfind : db.products.find? (fun p => matchesProduct sp p) with
  | some r =>
    rw [pullProductStep_match now db sp r hfind]
    have hids : (db.products.map
        (fun q => if q.id = r.id then writeProduct now sp q else q)).map Product.id =
        db.products.map Product.id := by
      rw [List.map_map]
      refine List.map_congr_left (fun q _ => ?_)
      by_cases hid : q.id = r.id
      · simp only [Function.comp_apply, if_pos hid]
        exact writeProduct_id now sp q
      · simp only [Function.comp_apply, if_neg hid]
    refine ⟨?_, ?_⟩
    · intro p hp
      obtain ⟨q, hq, rfl⟩ := List.mem_map.mp hp
      by_cases hid : q.id = r.id
      · rw [if_pos hid, writeProduct_id]
        exact hb q hq
      · rw [if_neg hid]
        exact hb q hq
    · show ((db.products.map _).map Product.id).Nodup
      rw [hids]
      exact hn
  | none =>
    rw [pullProductStep_insert now db sp hfind]
    refine ⟨?_, ?_⟩
    · intro p hp
      rcases List.mem_append.mp hp with hp | hp
      · exact Nat.lt_succ_of_lt (hb p hp)
      · rw [List.mem_singleton.mp hp]
        exact Nat.lt_succ_self _
    · show ((db.products ++ [insertProduct now sp db.nextProductId]).map Product.id).Nodup
      rw [List.map_append]
      rw [List.nodup_append]
      refine ⟨hn, List.nodup_singleton _, ?_⟩
      intro x hx hx2
      obtain ⟨q, hq, rfl⟩ := List.mem_map.mp hx
      have hlt := hb q hq
      have : q.id = db.nextProductId := by
        have := List.mem_singleton.mp hx2
        simpa using this
      rw [this] at hlt
      exact Nat.lt_irrefl _ hlt

theorem pullProducts_idsOk (now : Ts) (db : DB) (l : List ServerProduct)
    (h : productIdsOk db) : productIdsOk (pullProducts now db l) := by
  induction l generalizing db with
  | nil => exact h
  | cons sp rest ih =>
    show productIdsOk (pullProducts now (pullProductStep now db sp) rest)
    exact ih _ (productIdsOk_step now db sp h)

theorem absorbedP_fix (now : Ts) (db : DB) (sp : ServerProduct) (t : Nat)
    (h : absorbedP now db.products sp t) : pullProductStep now db sp = db := by
  obtain ⟨r, hfind, _, hw, huniq⟩ := h
  rw [pullProductStep_match now db sp r hfind]
  have hmap : db.products.map
      (fun q => if q.id = r.id then writeProduct now sp q else q) = db.products := by
    have hcg := List.map_congr_left (l := db.products)
      (f := fun q => if q.id = r.id then writeProduct now sp q else q)
      (g := fun q => q)
      (fun q hq => by
        dsimp only
        by_cases hqid : q.id = r.id
        · rw [if_pos hqid, huniq q hq hqid, hw]
        · rw [if_neg hqid])
    rw [hcg, List.map_id']
  rw [hmap]

theorem absorbedP_step (now : Ts) (db : DB) (sp : ServerProduct)
    (hok : productIdsOk db) (hsid : sp.effSid.isSome = true) :
    absorbedP now (pullProductStep now db sp).products sp (productTargetId db sp) := by
  obtain ⟨s, hs⟩ := Option.isSome_iff_exists.mp hsid
  obtain ⟨hb, hn⟩ := hok
  cases hfind : db.products.find? (fun p => matchesProduct sp p) with
  | some r =>
    rw [pullProductStep_match now db sp r hfind]
    obtain ⟨l1, l2, heq, h1, h2⟩ := find?_split _ hfind
    have hnodup : ((l1 ++ r :: l2).map Product.id).Nodup := by rw [← heq]; exact hn
    rw [List.map_append, List.map_cons, List.nodup_append] at hnodup
    obtain ⟨_, hnr, hdisj⟩ := hnodup
    have hne1 : ∀ q ∈ l1, q.id ≠ r.id := by
      intro q hq he
      exact (List.disjoint_left.mp hdisj (List.mem_map_of_mem Product.id hq))
        (he ▸ List.mem_cons_self _ _)
    have hne2 : ∀ q ∈ l2, q.id ≠ r.id := by
      intro q hq he
      exact (List.nodup_cons.mp hnr).1 (he ▸ List.mem_map_of_mem Product.id hq)
    have hmap : db.products.map
        (fun q => if q.id = r.id then writeProduct now sp q else q) =
        l1 ++ writeProduct now sp r :: l2 := by
      rw [heq, List.map_append, List.map_cons, if_pos rfl]
      have hl1 : l1.map (fun q => if q.id = r.id then writeProduct now sp q else q) = l1 := by
        have := List.map_congr_left (l := l1)
          (f := fun q => if q.id = r.id then writeProduct now sp q else q)
          (g := fun q => q) (fun q hq => if_neg (hne1 q hq))
        rw [this, List.map_id']
      have hl2 : l2.map (fun q => if q.id = r.id then writeProduct now sp q else q) = l2 := by
        have := List.map_congr_left (l := l2)
          (f := fun q => if q.id = r.id then writeProduct now sp q else q)
          (g := fun q => q) (fun q hq => if_neg (hne2 q hq))
        rw [this, List.map_id']
      rw [hl1, hl2]
    rw [hmap]
    refine ⟨writeProduct now sp r, ?_, ?_, writeProduct_idem now sp r, ?_⟩
    · refine find?_of_split _ l1 l2 _ h1 ?_
      refine matchesProduct_of_sid sp _ s hs ?_
      have : (writeProduct now sp r).serverId = sp.effSid := rfl
      rw [this, hs]
      exact beq_self_eq_true _
    · rw [writeProduct_id]
      unfold productTargetId
      rw [hfind]
    · intro q hq hqid
      rw [writeProduct_id] at hqid
      rcases List.mem_append.mp hq with hq | hq
      · exact absurd hqid (hne1 q hq)
      · rcases List.mem_cons.mp hq with rfl | hq
        · rfl
        · exact absurd hqid (hne2 q hq)
  | none =>
    rw [pullProductStep_insert now db sp hfind]
    refine ⟨insertProduct now sp db.nextProductId, ?_, ?_,
      writeProduct_insertProduct now sp _, ?_⟩
    · rw [find?_append_none _ _ hfind]
      refine List.find?_cons_of_pos _ ?_
      refine matchesProduct_of_sid sp _ s hs ?_
      have : (insertProduct now sp db.nextProductId).serverId = sp.effSid := rfl
      rw [this, hs]
      exact beq_self_eq_true _
    · show db.nextProductId = productTargetId db sp
      unfold productTargetId
      rw [hfind]
    · intro q hq hqid
      rcases List.mem_append.mp hq with hq | hq
      · have hlt := hb q hq
        have : q.id = db.nextProductId := hqid
        rw [this] at hlt
        exact absurd hlt (Nat.lt_irrefl _)
      · exact List.mem_singleton.mp hq

theorem absorbedP_preserved (now : Ts) (db : DB) (sp sp' : ServerProduct) (t : Nat)
    (hok : productIdsOk db)
    (h : absorbedP now db.products sp t)
    (hne : sp'.effSid ≠ sp.effSid)
    (htne : productTargetId db sp' ≠ t) :
    absorbedP now (pullProductStep now db sp').products sp t := by
  obtain ⟨hb, _⟩ := hok
  obtain ⟨r, hfind, hid, hw, huniq⟩ := h
  cases hfind' : db.products.find? (fun p => matchesProduct sp' p) with
  | some r' =>
    rw [pullProductStep_match now db sp' r' hfind']
    have hr' : r'.id ≠ t := by
      unfold productTargetId at htne
      rw [hfind'] at htne
      exact htne
    have hrid : ¬ r.id = r'.id := by
      intro he
      exact hr' (by rw [← he, hid])
    have hfind2 : (db.products.map
        (fun q => if q.id = r'.id then writeProduct now sp' q else q)).find?
        (fun p => matchesProduct sp p) = some r := by
      obtain ⟨l1, l2, heq, h1, h2⟩ := find?_split _ hfind
      rw [heq, List.map_append, List.map_cons, if_neg hrid]
      refine find?_of_split _ _ _ _ ?_ h2
      intro y hy
      obtain ⟨x, hx, rfl⟩ := List.mem_map.mp hy
      by_cases hxid : x.id = r'.id
      · rw [if_pos hxid]
        refine matchesProduct_false sp _ ?_ ?_
        · intro s hs
          have hser : (writeProduct now sp' x).serverId = sp'.effSid := rfl
          rw [hser]
          refine beq_eq_false_iff_ne.mpr (fun he => hne ?_)
          rw [he, hs]
        · intro n hn
          have hidx : (writeProduct now sp' x).id = x.id := rfl
          rw [hidx]
          exact matchesProduct_id_part sp x n hn (h1 x hx)
      · rw [if_neg hxid]
        exact h1 x hx
    refine ⟨r, hfind2, hid, hw, ?_⟩
    intro q hq hqid
    obtain ⟨x, hx, rfl⟩ := List.mem_map.mp hq
    by_cases hxid : x.id = r'.id
    · rw [if_pos hxid] at hqid ⊢
      rw [writeProduct_id] at hqid
      have : x = r := huniq x hx hqid
      rw [this] at hxid
      exact absurd hxid hrid
    · rw [if_neg hxid] at hqid ⊢
      exact huniq x hx hqid
  | none =>
    rw [pullProductStep_insert now db sp' hfind']
    refine ⟨r, find?_append_some _ _ hfind, hid, hw, ?_⟩
    intro q hq hqid
    rcases List.mem_append.mp hq with hq | hq
    · exact huniq q hq hqid
    · exfalso
      rw [List.mem_singleton.mp hq] at hqid
      have : db.nextProductId = r.id := hqid
      have hlt := hb r (List.mem_of_find?_eq_some hfind)
      rw [← this] at hlt
      exact Nat.lt_irrefl _ hlt

theorem absorbedP_foldl (now : Ts) (db : DB) (sp : ServerProduct) (t : Nat)
    (l : List ServerProduct)
    (hok : productIdsOk db)
    (h : absorbedP now db.products sp t)
    (hne : ∀ x ∈ l, x.effSid ≠ sp.effSid)
    (ht : t ∉ productTargets now db l) :
    absorbedP now (pullProducts now db l).products sp t := by
  induction l generalizing db with
  | nil => exact h
  | cons x xs ih =>
    show absorbedP now (pullProducts now (pullProductStep now db x) xs).products sp t
    have hthead : productTargetId db x ≠ t := by
      intro he
      exact ht (he ▸ List.mem_cons_self _ _)
    refine ih (pullProductStep now db x) (productIdsOk_step now db x hok)
      (absorbedP_preserved now db sp x t hok h (hne x (List.mem_cons_self _ _)) hthead)
      (fun y hy => hne y (List.mem_cons_of_mem _ hy)) ?_
    intro hmem
    exact ht (List.mem_cons_of_mem _ hmem)

theorem pullProducts_absorbs (now : Ts) (db : DB) (l : List ServerProduct)
    (hok : productIdsOk db) (hs : safeProducts now db l) :
    ∀ sp ∈ l, ∃ t, absorbedP now (pullProducts now db l).products sp t := by
  induction l generalizing db with
  | nil => exact fun sp h => absurd h (List.not_mem_nil _)
  | cons x xs ih =>
    obtain ⟨hall, hsids, hts⟩ := hs
    intro sp hsp
    rcases List.mem_cons.mp hsp with rfl | hsp'
    · refine ⟨productTargetId db sp, ?_⟩
      show absorbedP now (pullProducts now (pullProductStep now db sp) xs).products sp _
      refine absorbedP_foldl now _ sp _ xs (productIdsOk_step now db sp hok)
        (absorbedP_step now db sp hok (hall sp (List.mem_cons_self _ _))) ?_ ?_
      · intro y hy he
        exact (List.nodup_cons.mp hsids).1
          (he ▸ List.mem_map_of_mem ServerProduct.effSid hy)
      · exact (List.nodup_cons.mp hts).1
    · exact ih (pullProductStep now db x) (productIdsOk_step now db x hok)
        ⟨fun y hy => hall y (List.mem_cons_of_mem _ hy),
         (List.nodup_cons.mp hsids).2, (List.nodup_cons.mp hts).2⟩ sp hsp'

theorem pullProducts_fixed (now : Ts) (db : DB) (l : List ServerProduct)
    (h : ∀ sp ∈ l, ∃ t, absorbedP now db.products sp t) :
    pullProducts now db l = db := by
  induction l with
  | nil => rfl
  | cons x xs ih =>
    obtain ⟨t, habs⟩ := h x (List.mem_cons_self _ _)
    show pullProducts now (pullProductStep now db x) xs = db
    rw [absorbedP_fix now db x t habs]
    exact ih (fun sp hsp => h sp (List.mem_cons_of_mem _ hsp))

/-! ## C3 — uniqueness of serverId -/

theorem sidRel_of_guard (a : Product) (v : Option String)
    (hg : ∀ s, v = some s → a.serverId ≠ some s) :
    a.serverId = none ∨ a.serverId ≠ v := by
  cases haser : a.serverId with
  | none => exact Or.inl rfl
  | some s' =>
    refine Or.inr ?_
    intro he
    exact hg s' he.symm haser

theorem uniqueServerIds_step (now : Ts) (db : DB) (sp : ServerProduct)
    (hok : productIdsOk db)
    (hsafe : noStealP db sp = true)
    (h : uniqueServerIds db.products) :
    uniqueServerIds (pullProductStep now db sp).products := by
  obtain ⟨_, hn⟩ := hok
  cases hfind : db.products.find? (fun p => matchesProduct sp p) with
  | some r =>
    rw [pullProductStep_match now db sp r hfind]
    have hholder : ∀ q ∈ db.products, ∀ s, sp.effSid = some s →
        q.serverId = some s → q = r := by
      intro q hq s hsEq hqs
      unfold noStealP at hsafe
      rw [hsEq] at hsafe
      have hall := List.all_eq_true.mp hsafe q hq
      rw [hqs] at hall
      have hbne : (some s != some s) = false := by simp
      rw [hbne] at hall
      have : (db.products.find? (fun p => matchesProduct sp p) == some q) = true := by
        simpa using hall
      have heq := eq_of_beq this
      rw [hfind] at heq
      exact (Option.some.inj heq).symm
    obtain ⟨l1, l2, heq, h1, _⟩ := find?_split _ hfind
    have hnodup : ((l1 ++ r :: l2).map Product.id).Nodup := by rw [← heq]; exact hn
    rw [List.map_append, List.map_cons, List.nodup_append] at hnodup
    obtain ⟨_, hnr, hdisj⟩ := hnodup
    have hne1 : ∀ q ∈ l1, q.id ≠ r.id := by
      intro q hq he
      exact (List.disjoint_left.mp hdisj (List.mem_map_of_mem Product.id hq))
        (he ▸ List.mem_cons_self _ _)
    have hne2 : ∀ q ∈ l2, q.id ≠ r.id := by
      intro q hq he
      exact (List.nodup_cons.mp hnr).1 (he ▸ List.mem_map_of_mem Product.id hq)
    have hmap : db.products.map
        (fun q => if q.id = r.id then writeProduct now sp q else q) =
        l1 ++ writeProduct now sp r :: l2 := by
      rw [heq, List.map_append, List.map_cons, if_pos rfl]
      have hl1 : l1.map (fun q => if q.id = r.id then writeProduct now sp q else q) = l1 := by
        have := List.map_congr_left (l := l1)
          (f := fun q => if q.id = r.id then writeProduct now sp q else q)
          (g := fun q => q) (fun q hq => if_neg (hne1 q hq))
        rw [this, List.map_id']
      have hl2 : l2.map (fun q => if q.id = r.id then writeProduct now sp q else q) = l2 := by
        have := List.map_congr_left (l := l2)
          (f := fun q => if q.id = r.id then writeProduct now sp q else q)
          (g := fun q => q) (fun q hq => if_neg (hne2 q hq))
        rw [this, List.map_id']
      rw [hl1, hl2]
    rw [hmap]
    rw [heq] at h
    show uniqueServerIds (l1 ++ writeProduct now sp r :: l2)
    unfold uniqueServerIds at h ⊢
    rw [List.pairwise_append] at h ⊢
    obtain ⟨hp1, hp2, hcross⟩ := h
    obtain ⟨hrl2, hpl2⟩ := List.pairwise_cons.mp hp2
    refine ⟨hp1, ?_, ?_⟩
    · refine List.pairwise_cons.mpr ⟨?_, hpl2⟩
      intro y hy
      have hser : (writeProduct now sp r).serverId = sp.effSid := rfl
      cases hsid : sp.effSid with
      | none => exact Or.inl (by rw [hser, hsid])
      | some s =>
        refine Or.inr ?_
        rw [hser, hsid]
        intro hcontra
        have hymem : y ∈ db.products := by
          rw [heq]
          exact List.mem_append_right _ (List.mem_cons_of_mem _ hy)
        have hyr : y = r := hholder y hymem s hsid hcontra.symm
        exact hne2 y hy (by rw [hyr])
    · intro a ha b hb
      rcases List.mem_cons.mp hb with rfl | hb2
      · refine sidRel_of_guard a (writeProduct now sp r).serverId ?_
        intro s hs he
        have hser : (writeProduct now sp r).serverId = sp.effSid := rfl
        have hsid : sp.effSid = some s := hser ▸ hs
        have hamem : a ∈ db.products := by
          rw [heq]
          exact List.mem_append_left _ ha
        have har : a = r := hholder a hamem s hsid he
        exact hne1 a ha (by rw [har])
      · exact hcross a ha b (List.mem_cons_of_mem _ hb2)
  | none =>
    rw [pullProductStep_insert now db sp hfind]
    show uniqueServerIds (db.products ++ [insertProduct now sp db.nextProductId])
    unfold uniqueServerIds at h ⊢
    rw [List.pairwise_append]
    refine ⟨h, List.pairwise_singleton _ _, ?_⟩
    intro a ha b hb
    rw [List.mem_singleton.mp hb]
    refine sidRel_of_guard a (insertProduct now sp db.nextProductId).serverId ?_
    intro s hs he
    have hser : (insertProduct now sp db.nextProductId).serverId = sp.effSid := rfl
    have hsid : sp.effSid = some s := hser ▸ hs
    have := List.find?_eq_none.mp hfind a ha
    exact this (matchesProduct_of_sid sp a s hsid
      (by rw [he]; exact beq_self_eq_true _))

theorem uniqueServerIds_pullProducts (now : Ts) (db : DB)
    (l : List ServerProduct)
    (hok : productIdsOk db) (hsafe : noStealAllP now db l = true)
    (h : uniqueServerIds db.products) :
    uniqueServerIds (pullProducts now db l).products := by
  induction l generalizing db with
  | nil => exact h
  | cons x xs ih =>
    have hsafe' := hsafe
    unfold noStealAllP at hsafe'
    obtain ⟨hhead, htail⟩ := (Bool.and_eq_true _ _) ▸ hsafe'
    show uniqueServerIds (pullProducts now (pullProductStep now db x) xs).products
    exact ih _ (productIdsOk_step now db x hok) htail
      (uniqueServerIds_step now db x hok hhead h)

theorem applyRespProduct_ids (now : Ts) (ps : List Product) (rec : RespRecord) :
    (applyRespProduct now ps rec).map Product.id = ps.map Product.id := by
  unfold applyRespProduct
  rw [List.map_map]
  refine List.map_congr_left (fun q _ => ?_)
  by_cases hid : q.id = rec.id
  · simp only [Function.comp_apply, if_pos hid]
  · simp only [Function.comp_apply, if_neg hid]

theorem uniqueServerIds_applyOne (now : Ts) (rec : RespRecord) (ps : List Product)
    (hnodup : (ps.map Product.id).Nodup)
    (hsafe : ∀ q ∈ ps, q.serverId = some rec.effSid → q.id = rec.id)
    (h : uniqueServerIds ps) :
    uniqueServerIds (applyRespProduct now ps rec) := by
  induction ps with
  | nil => exact List.Pairwise.nil
  | cons p rest ih =>
    have hstep : applyRespProduct now (p :: rest) rec =
        (if p.id = rec.id then
          { p with syncedAt := some now, serverId := some rec.effSid }
         else p) :: applyRespProduct now rest rec := rfl
    rw [hstep]
    obtain ⟨hhead, htail⟩ := List.pairwise_cons.mp h
    rw [List.map_cons, List.nodup_cons] at hnodup
    obtain ⟨hpid_not, hnodup'⟩ := hnodup
    refine List.pairwise_cons.mpr ⟨?_, ih hnodup'
      (fun q hq hs => hsafe q (List.mem_cons_of_mem _ hq) hs) htail⟩
    intro b hb
    obtain ⟨y, hy, rfl⟩ := List.mem_map.mp hb
    by_cases hpid : p.id = rec.id
    · rw [if_pos hpid]
      by_cases hyid : y.id = rec.id
      · exfalso
        exact hpid_not (hpid ▸ hyid ▸ List.mem_map_of_mem Product.id hy)
      · rw [if_neg hyid]
        refine Or.inr ?_
        show some rec.effSid ≠ y.serverId
        intro he
        exact hyid (hsafe y (List.mem_cons_of_mem _ hy) he.symm)
    · rw [if_neg hpid]
      by_cases hyid : y.id = rec.id
      · rw [if_pos hyid]
        by_cases hps : p.serverId = some rec.effSid
        · exact absurd (hsafe p (List.mem_cons_self _ _) hps) hpid
        · exact Or.inr (fun he => hps he)
      · rw [if_neg hyid]
        exact hhead y hy

theorem uniqueServerIds_applyResp (now : Ts) (ps : List Product)
    (recs : List RespRecord)
    (hnodup : (ps.map Product.id).Nodup)
    (hsafe : respSafeP now ps recs = true)
    (h : uniqueServerIds ps) :
    uniqueServerIds (recs.foldl (applyRespProduct now) ps) := by
  induction recs generalizing ps with
  | nil => exact h
  | cons rec rest ih =>
    have hsafe' := hsafe
    unfold respSafeP at hsafe'
    obtain ⟨hhead, htail⟩ := (Bool.and_eq_true _ _) ▸ hsafe'
    have hhead' : ∀ q ∈ ps, q.serverId = some rec.effSid → q.id = rec.id := by
      intro q hq hqs
      have hall := List.all_eq_true.mp hhead q hq
      rw [hqs] at hall
      have hbne : (some rec.effSid != some rec.effSid) = false := by simp
      rw [hbne] at hall
      have : (q.id == rec.id) = true := by simpa using hall
      exact eq_of_beq this
    show uniqueServerIds (rest.foldl (applyRespProduct now) (applyRespProduct now ps rec))
    refine ih (applyRespProduct now ps rec) ?_ htail
      (uniqueServerIds_applyOne now rec ps hnodup hhead' h)
    rw [applyRespProduct_ids]
    exact hnodup

/-- **C3** (counterexample).  Starting from `dbSevenNine` — where the
uniqueness invariant holds — a pull of the single record `spAbc7` (trivially
distinct server ids) attaches "abc" to row 7 by the id fallback while row 9
keeps "abc": two rows carry the same non-null serverId afterwards. -/
theorem c3_uniqueness_counterexample :
    uniqueServerIds dbSevenNine.products ∧
    (snapSingleAbc.products.map ServerProduct.effSid).Nodup ∧
    ¬ uniqueServerIds (pullFromServer nowFix snapSingleAbc dbSevenNine).products := by
  exact ⟨by decide, by decide, by decide⟩

/-- **C3** (amended).  The uniqueness invariant is preserved by pull and by
the push write-back under the stepwise safety the code actually needs: for
pull, any local row already holding a record's server identifier must be the
row the upsert query selects (`noStealAllP`); for push, no row other than the
addressed one may already hold the identifier a response record stamps
(`respSafeP`).  The counterexample shows the invariant is otherwise violated
even for records carrying pairwise-distinct server ids. -/
theorem c3_uniqueness_amended
    (now : Ts) (snap : Snapshot) (db : DB)
    (tQuery tWrite : Ts) (net : PushPayload → NetResult) (resp : PushResponse)
    (hok : productIdsOk db)
    (huniq : uniqueServerIds db.products)
    (hpull : noStealAllP now db snap.products = true)
    (hpush : respSafeP tWrite db.products resp.products = true)
    (hnet : net (buildPushPayload tQuery db) = NetResult.ok resp) :
    uniqueServerIds (pullFromServer now snap db).products ∧
    uniqueServerIds (pushToServer tQuery tWrite net db).1.products := by
  constructor
  · unfold pullFromServer
    rw [pullInvoices_products]
    exact uniqueServerIds_pullProducts now db snap.products hok hpull huniq
  · rw [pushToServer_ok tQuery tWrite net db resp hnet]
    unfold applyPushResponse
    exact uniqueServerIds_applyResp tWrite db.products resp.products hok.2 hpush huniq

/-- Witness for C3 amended: pulling the bootstrap record and pushing a
response carrying a fresh server id, over a one-product store. -/
theorem c3_uniqueness_amended_witness :
    uniqueServerIds (pullFromServer nowFix snapBootstrap dbProdOne).products ∧
    uniqueServerIds
      (pushToServer nowFix nowFix (fun _ => NetResult.ok respZzz) dbProdOne).1.products :=
  c3_uniqueness_amended nowFix snapBootstrap dbProdOne nowFix nowFix
    (fun _ => NetResult.ok respZzz) respZzz
    (by decide) (by decide) (by decide) (by decide) rfl

/-! ## The invoice loop: stability of applied records (mirror of the product
loop) -/

theorem pullInvoiceUpsert_match (now : Ts) (db : DB) (sv : ServerInvoice)
    (r : Invoice) (h : db.invoices.find? (fun i => matchesInvoice sv i) = some r) :
    pullInvoiceUpsert now db sv =
      { db with
        invoices := db.invoices.map
          (fun q => if q.id = r.id then writeInvoice now sv q else q) } := by
  unfold pullInvoiceUpsert
  rw [h]

theorem pullInvoiceUpsert_insert (now : Ts) (db : DB) (sv : ServerInvoice)
    (h : db.invoices.find? (fun i => matchesInvoice sv i) = none) :
    pullInvoiceUpsert now db sv =
      { db with
        invoices := db.invoices ++ [insertInvoice now sv db.nextInvoiceId]
        nextInvoiceId := db.nextInvoiceId + 1 } := by
  unfold pullInvoiceUpsert
  rw [h]

theorem writeInvoice_id (now : Ts) (sv : ServerInvoice) (i : Invoice) :
    (writeInvoice now sv i).id = i.id := rfl

theorem writeInvoice_idem (now : Ts) (sv : ServerInvoice) (i : Invoice) :
    writeInvoice now sv (writeInvoice now sv i) = writeInvoice now sv i := rfl

theorem writeInvoice_insertInvoice (now : Ts) (sv : ServerInvoice) (nid : Nat) :
    writeInvoice now sv (insertInvoice now sv nid) = insertInvoice now sv nid := rfl

theorem matchesInvoice_id_part (sv : ServerInvoice) (x : Invoice) (n : Nat)
    (hn : sv.id = some n) (h : matchesInvoice sv x = false) :
    (x.id == n) = false := by
  unfold matchesInvoice at h
  rw [hn] at h
  cases hs : sv.effSid with
  | none =>
    rw [hs] at h
    dsimp only at h
    simpa using h
  | some s =>
    rw [hs] at h
    dsimp only at h
    exact (Bool.or_eq_false_iff.mp h).2

theorem invoiceIdsOk_upsert (now : Ts) (db : DB) (sv : ServerInvoice)
    (h : invoiceIdsOk db) : invoiceIdsOk (pullInvoiceUpsert now db sv) := by
  obtain ⟨hb, hn⟩ := h
  cases hfind : db.invoices.find? (fun i => matchesInvoice sv i) with
  | some r =>
    rw [pullInvoiceUpsert_match now db sv r hfind]
    have hids : (db.invoices.map
        (fun q => if q.id = r.id then writeInvoice now sv q else q)).map Invoice.id =
        db.invoices.map Invoice.id := by
      rw [List.map_map]
      refine List.map_congr_left (fun q _ => ?_)
      by_cases hid : q.id = r.id
      · simp only [Function.comp_apply, if_pos hid]
        exact writeInvoice_id now sv q
      · simp only [Function.comp_apply, if_neg hid]
    refine ⟨?_, ?_⟩
    · intro i hi
      obtain ⟨q, hq, rfl⟩ := List.mem_map.mp hi
      by_cases hid : q.id = r.id
      · rw [if_pos hid, writeInvoice_id]
        exact hb q hq
      · rw [if_neg hid]
        exact hb q hq
    · show ((db.invoices.map _).map Invoice.id).Nodup
      rw [hids]
      exact hn
  | none =>
    rw [pullInvoiceUpsert_insert now db sv hfind]
    refine ⟨?_, ?_⟩
    · intro i hi
      rcases List.mem_append.mp hi with hi | hi
      · exact Nat.lt_succ_of_lt (hb i hi)
      · rw [List.mem_singleton.mp hi]
        exact Nat.lt_succ_self _
    · show ((db.invoices ++ [insertInvoice now sv db.nextInvoiceId]).map Invoice.id).Nodup
      rw [List.map_append]
      rw [List.nodup_append]
      refine ⟨hn, List.nodup_singleton _, ?_⟩
      intro x hx hx2
      obtain ⟨q, hq, rfl⟩ := List.mem_map.mp hx
      have hlt := hb q hq
      have : q.id = db.nextInvoiceId := by
        have := List.mem_singleton.mp hx2
        simpa using this
      rw [this] at hlt
      exact Nat.lt_irrefl _ hlt

theorem invoiceIdsOk_step (now : Ts) (db : DB) (sv : ServerInvoice)
    (h : invoiceIdsOk db) : invoiceIdsOk (pullInvoiceStep now db sv) := by
  obtain ⟨hb, hn⟩ := invoiceIdsOk_upsert now db sv h
  constructor
  · intro i hi
    rw [pullInvoiceStep_invoices] at hi
    rw [pullInvoiceStep_nextInvoiceId]
    exact hb i hi
  · rw [pullInvoiceStep_invoices]
    exact hn

theorem pullInvoices_idsOk (now : Ts) (db : DB) (l : List ServerInvoice)
    (h : invoiceIdsOk db) : invoiceIdsOk (pullInvoices now db l) := by
  induction l generalizing db with
  | nil => exact h
  | cons sv rest ih =>
    show invoiceIdsOk (pullInvoices now (pullInvoiceStep now db sv) rest)
    exact ih _ (invoiceIdsOk_step now db sv h)

theorem absorbedI_fix (now : Ts) (db : DB) (sv : ServerInvoice) (t : Nat)
    (h : absorbedI now db.invoices sv t) : pullInvoiceUpsert now db sv = db := by
  obtain ⟨r, hfind, _, hw, huniq⟩ := h
  rw [pullInvoiceUpsert_match now db sv r hfind]
  have hmap : db.invoices.map
      (fun q => if q.id = r.id then writeInvoice now sv q else q) = db.invoices := by
    have hcg := List.map_congr_left (l := db.invoices)
      (f := fun q => if q.id = r.id then writeInvoice now sv q else q)
      (g := fun q => q)
      (fun q hq => by
        dsimp only
        by_cases hqid : q.id = r.id
        · rw [if_pos hqid, huniq q hq hqid, hw]
        · rw [if_neg hqid])
    rw [hcg, List.map_id']
  rw [hmap]

theorem absorbedI_upsert_step (now : Ts) (db : DB) (sv : ServerInvoice)
    (hok : invoiceIdsOk db) (hsid : sv.effSid.isSome = true) :
    absorbedI now (pullInvoiceUpsert now db sv).invoices sv (invoiceTargetId db sv) := by
  obtain ⟨s, hs⟩ := Option.isSome_iff_exists.mp hsid
  obtain ⟨hb, hn⟩ := hok
  cases hfind : db.invoices.find? (fun i => matchesInvoice sv i) with
  | some r =>
    rw [pullInvoiceUpsert_match now db sv r hfind]
    obtain ⟨l1, l2, heq, h1, h2⟩ := find?_split _ hfind
    have hnodup : ((l1 ++ r :: l2).map Invoice.id).Nodup := by rw [← heq]; exact hn
    rw [List.map_append, List.map_cons, List.nodup_append] at hnodup
    obtain ⟨_, hnr, hdisj⟩ := hnodup
    have hne1 : ∀ q ∈ l1, q.id ≠ r.id := by
      intro q hq he
      exact (List.disjoint_left.mp hdisj (List.mem_map_of_mem Invoice.id hq))
        (he ▸ List.mem_cons_self _ _)
    have hne2 : ∀ q ∈ l2, q.id ≠ r.id := by
      intro q hq he
      exact (List.nodup_cons.mp hnr).1 (he ▸ List.mem_map_of_mem Invoice.id hq)
    have hmap : db.invoices.map
        (fun q => if q.id = r.id then writeInvoice now sv q else q) =
        l1 ++ writeInvoice now sv r :: l2 := by
      rw [heq, List.map_append, List.map_cons, if_pos rfl]
      have hl1 : l1.map (fun q => if q.id = r.id then writeInvoice now sv q else q) = l1 := by
        have := List.map_congr_left (l := l1)
          (f := fun q => if q.id = r.id then writeInvoice now sv q else q)
          (g := fun q => q) (fun q hq => if_neg (hne1 q hq))
        rw [this, List.map_id']
      have hl2 : l2.map (fun q => if q.id = r.id then writeInvoice now sv q else q) = l2 := by
        have := List.map_congr_left (l := l2)
          (f := fun q => if q.id = r.id then writeInvoice now sv q else q)
          (g := fun q => q) (fun q hq => if_neg (hne2 q hq))
        rw [this, List.map_id']
      rw [hl1, hl2]
    rw [hmap]
    refine ⟨writeInvoice now sv r, ?_, ?_, writeInvoice_idem now sv r, ?_⟩
    · refine find?_of_split _ l1 l2 _ h1 ?_
      refine matchesInvoice_of_sid sv _ s hs ?_
      have : (writeInvoice now sv r).serverId = sv.effSid := rfl
      rw [this, hs]
      exact beq_self_eq_true _
    · rw [writeInvoice_id]
      unfold invoiceTargetId
      rw [hfind]
    · intro q hq hqid
      rw [writeInvoice_id] at hqid
      rcases List.mem_append.mp hq with hq | hq
      · exact absurd hqid (hne1 q hq)
      · rcases List.mem_cons.mp hq with rfl | hq
        · rfl
        · exact absurd hqid (hne2 q hq)
  | none =>
    rw [pullInvoiceUpsert_insert now db sv hfind]
    refine ⟨insertInvoice now sv db.nextInvoiceId, ?_, ?_,
      writeInvoice_insertInvoice now sv _, ?_⟩
    · rw [find?_append_none _ _ hfind]
      refine List.find?_cons_of_pos _ ?_
      refine matchesInvoice_of_sid sv _ s hs ?_
      have : (insertInvoice now sv db.nextInvoiceId).serverId = sv.effSid := rfl
      rw [this, hs]
      exact beq_self_eq_true _
    · show db.nextInvoiceId = invoiceTargetId db sv
      unfold invoiceTargetId
      rw [hfind]
    · intro q hq hqid
      rcases List.mem_append.mp hq with hq | hq
      · have hlt := hb q hq
        have : q.id = db.nextInvoiceId := hqid
        rw [this] at hlt
        exact absurd hlt (Nat.lt_irrefl _)
      · exact List.mem_singleton.mp hq

theorem absorbedI_step (now : Ts) (db : DB) (sv : ServerInvoice)
    (hok : invoiceIdsOk db) (hsid : sv.effSid.isSome = true) :
    absorbedI now (pullInvoiceStep now db sv).invoices sv (invoiceTargetId db sv) := by
  rw [pullInvoiceStep_invoices]
  exact absorbedI_upsert_step now db sv hok hsid

theorem absorbedI_upsert_preserved (now : Ts) (db : DB) (sv sv' : ServerInvoice)
    (t : Nat)
    (hok : invoiceIdsOk db)
    (h : absorbedI now db.invoices sv t)
    (hne : sv'.effSid ≠ sv.effSid)
    (htne : invoiceTargetId db sv' ≠ t) :
    absorbedI now (pullInvoiceUpsert now db sv').invoices sv t := by
  obtain ⟨hb, _⟩ := hok
  obtain ⟨r, hfind, hid, hw, huniq⟩ := h
  cases hfind' : db.invoices.find? (fun i => matchesInvoice sv' i) with
  | some r' =>
    rw [pullInvoiceUpsert_match now db sv' r' hfind']
    have hr' : r'.id ≠ t := by
      unfold invoiceTargetId at htne
      rw [hfind'] at htne
      exact htne
    have hrid : ¬ r.id = r'.id := by
      intro he
      exact hr' (by rw [← he, hid])
    have hfind2 : (db.invoices.map
        (fun q => if q.id = r'.id then writeInvoice now sv' q else q)).find?
        (fun i => matchesInvoice sv i) = some r := by
      obtain ⟨l1, l2, heq, h1, h2⟩ := find?_split _ hfind
      rw [heq, List.map_append, List.map_cons, if_neg hrid]
      refine find?_of_split _ _ _ _ ?_ h2
      intro y hy
      obtain ⟨x, hx, rfl⟩ := List.mem_map.mp hy
      by_cases hxid : x.id = r'.id
      · rw [if_pos hxid]
        refine matchesInvoice_false sv _ ?_ ?_
        · intro s hs
          have hser : (writeInvoice now sv' x).serverId = sv'.effSid := rfl
          rw [hser]
          refine beq_eq_false_iff_ne.mpr (fun he => hne ?_)
          rw [he, hs]
        · intro n hn
          have hidx : (writeInvoice now sv' x).id = x.id := rfl
          rw [hidx]
          exact matchesInvoice_id_part sv x n hn (h1 x hx)
      · rw [if_neg hxid]
        exact h1 x hx
    refine ⟨r, hfind2, hid, hw, ?_⟩
    intro q hq hqid
    obtain ⟨x, hx, rfl⟩ := List.mem_map.mp hq
    by_cases hxid : x.id = r'.id
    · rw [if_pos hxid] at hqid ⊢
      rw [writeInvoice_id] at hqid
      have : x = r := huniq x hx hqid
      rw [this] at hxid
      exact absurd hxid hrid
    · rw [if_neg hxid] at hqid ⊢
      exact huniq x hx hqid
  | none =>
    rw [pullInvoiceUpsert_insert now db sv' hfind']
    refine ⟨r, find?_append_some _ _ hfind, hid, hw, ?_⟩
    intro q hq hqid
    rcases List.mem_append.mp hq with hq | hq
    · exact huniq q hq hqid
    · exfalso
      rw [List.mem_singleton.mp hq] at hqid
      have : db.nextInvoiceId = r.id := hqid
      have hlt := hb r (List.mem_of_find?_eq_some hfind)
      rw [← this] at hlt
      exact Nat.lt_irrefl _ hlt

theorem absorbedI_preserved (now : Ts) (db : DB) (sv sv' : ServerInvoice) (t : Nat)
    (hok : invoiceIdsOk db)
    (h : absorbedI now db.invoices sv t)
    (hne : sv'.effSid ≠ sv.effSid)
    (htne : invoiceTargetId db sv' ≠ t) :
    absorbedI now (pullInvoiceStep now db sv').invoices sv t := by
  rw [pullInvoiceStep_invoices]
  exact absorbedI_upsert_preserved now db sv sv' t hok h hne htne

theorem absorbedI_foldl (now : Ts) (db : DB) (sv : ServerInvoice) (t : Nat)
    (l : List ServerInvoice)
    (hok : invoiceIdsOk db)
    (h : absorbedI now db.invoices sv t)
    (hne : ∀ x ∈ l, x.effSid ≠ sv.effSid)
    (ht : t ∉ invoiceTargets now db l) :
    absorbedI now (pullInvoices now db l).invoices sv t := by
  induction l generalizing db with
  | nil => exact h
  | cons x xs ih =>
    show absorbedI now (pullInvoices now (pullInvoiceStep now db x) xs).invoices sv t
    have hthead : invoiceTargetId db x ≠ t := by
      intro he
      exact ht (he ▸ List.mem_cons_self _ _)
    refine ih (pullInvoiceStep now db x) (invoiceIdsOk_step now db x hok)
      (absorbedI_preserved now db sv x t hok h (hne x (List.mem_cons_self _ _)) hthead)
      (fun y hy => hne y (List.mem_cons_of_mem _ hy)) ?_
    intro hmem
    exact ht (List.mem_cons_of_mem _ hmem)

theorem pullInvoices_absorbs_zip (now : Ts) (db : DB) (l : List ServerInvoice)
    (hok : invoiceIdsOk db) (hs : safeInvoices now db l) :
    ∀ pair ∈ l.zip (invoiceTargets now db l),
      absorbedI now (pullInvoices now db l).invoices pair.1 pair.2 := by
  induction l generalizing db with
  | nil => exact fun pair h => absurd h (List.not_mem_nil _)
  | cons x xs ih =>
    obtain ⟨hall, hsids, hts⟩ := hs
    intro pair hpair
    have hzip : (x :: xs).zip (invoiceTargets now db (x :: xs)) =
        (x, invoiceTargetId db x) ::
          xs.zip (invoiceTargets now (pullInvoiceStep now db x) xs) := rfl
    rw [hzip] at hpair
    rcases List.mem_cons.mp hpair with rfl | hpair'
    · show absorbedI now
        (pullInvoices now (pullInvoiceStep now db x) xs).invoices x
        (invoiceTargetId db x)
      refine absorbedI_foldl now _ x _ xs (invoiceIdsOk_step now db x hok)
        (absorbedI_step now db x hok (hall x (List.mem_cons_self _ _))) ?_ ?_
      · intro y hy he
        exact (List.nodup_cons.mp hsids).1
          (he ▸ List.mem_map_of_mem ServerInvoice.effSid hy)
      · exact (List.nodup_cons.mp hts).1
    · exact ih (pullInvoiceStep now db x) (invoiceIdsOk_step now db x hok)
        ⟨fun y hy => hall y (List.mem_cons_of_mem _ hy),
         (List.nodup_cons.mp hsids).2, (List.nodup_cons.mp hts).2⟩ pair hpair'

theorem pullInvoices_absorbs (now : Ts) (db : DB) (l : List ServerInvoice)
    (hok : invoiceIdsOk db) (hs : safeInvoices now db l) :
    ∀ sv ∈ l, ∃ t, absorbedI now (pullInvoices now db l).invoices sv t := by
  induction l generalizing db with
  | nil => exact fun sv h => absurd h (List.not_mem_nil _)
  | cons x xs ih =>
    obtain ⟨hall, hsids, hts⟩ := hs
    intro sv hsv
    rcases List.mem_cons.mp hsv with rfl | hsv'
    · refine ⟨invoiceTargetId db sv, ?_⟩
      show absorbedI now
        (pullInvoices now (pullInvoiceStep now db sv) xs).invoices sv _
      refine absorbedI_foldl now _ sv _ xs (invoiceIdsOk_step now db sv hok)
        (absorbedI_step now db sv hok (hall sv (List.mem_cons_self _ _))) ?_ ?_
      · intro y hy he
        exact (List.nodup_cons.mp hsids).1
          (he ▸ List.mem_map_of_mem ServerInvoice.effSid hy)
      · exact (List.nodup_cons.mp hts).1
    · exact ih (pullInvoiceStep now db x) (invoiceIdsOk_step now db x hok)
        ⟨fun y hy => hall y (List.mem_cons_of_mem _ hy),
         (List.nodup_cons.mp hsids).2, (List.nodup_cons.mp hts).2⟩ sv hsv'

/-! ## The item-replacement operations of the invoice loop -/

theorem pullInvoiceLid_eq (now : Ts) (db : DB) (sv : ServerInvoice)
    (hsid : sv.effSid.isSome = true) :
    pullInvoiceLid now db sv = some (invoiceTargetId db sv) := by
  obtain ⟨s, hs⟩ := Option.isSome_iff_exists.mp hsid
  unfold pullInvoiceLid invoiceTargetId
  cases hfind : db.invoices.find? (fun i => matchesInvoice sv i) with
  | some r => rfl
  | none =>
    rw [hs]
    rw [pullInvoiceUpsert_insert now db sv hfind]
    dsimp only
    rw [find?_append_none]
    · rw [List.find?_cons_of_pos]
      · rfl
      · have : (insertInvoice now sv db.nextInvoiceId).serverId = sv.effSid := rfl
        rw [this, hs]
        exact beq_self_eq_true _
    · refine List.find?_eq_none.mpr (fun i hi => ?_)
      intro hcontra
      exact (List.find?_eq_none.mp hfind i hi) (matchesInvoice_of_sid sv i s hs hcontra)

theorem invOps_cons (now : Ts) (db : DB) (sv : ServerInvoice)
    (rest : List ServerInvoice) :
    invOps now db (sv :: rest) =
      (match sv.items with
       | none => []
       | some its =>
           match pullInvoiceLid now db sv with
           | none => []
           | some lid => [(lid, resolveItems db.products lid its)]) ++
      invOps now (pullInvoiceStep now db sv) rest := rfl

theorem pullInvoiceStep_items_none (now : Ts) (db : DB) (sv : ServerInvoice)
    (h : sv.items = none) :
    (pullInvoiceStep now db sv).items = db.items := by
  unfold pullInvoiceStep
  rw [h]
  exact pullInvoiceUpsert_items now db sv

theorem pullInvoiceStep_items_noLid (now : Ts) (db : DB) (sv : ServerInvoice)
    (its : List ServerItem) (h1 : sv.items = some its)
    (h2 : pullInvoiceLid now db sv = none) :
    (pullInvoiceStep now db sv).items = db.items := by
  unfold pullInvoiceStep
  rw [h1]
  dsimp only
  rw [h2]
  exact pullInvoiceUpsert_items now db sv

theorem pullInvoiceStep_items_lid (now : Ts) (db : DB) (sv : ServerInvoice)
    (its : List ServerItem) (lid : Nat) (h1 : sv.items = some its)
    (h2 : pullInvoiceLid now db sv = some lid) :
    (pullInvoiceStep now db sv).items =
      db.items.filter (fun it => it.invoiceId != lid) ++
        resolveItems db.products lid its := by
  unfold pullInvoiceStep
  rw [h1]
  dsimp only
  rw [h2]
  dsimp only
  rw [pullInvoiceUpsert_items, pullInvoiceUpsert_products]

theorem resolveItems_invoiceId (ps : List Product) (lid : Nat)
    (its : List ServerItem) :
    ∀ it ∈ resolveItems ps lid its, it.invoiceId = lid := by
  intro it hit
  unfold resolveItems at hit
  obtain ⟨x, _, hmap⟩ := List.mem_filterMap.mp hit
  cases hres : resolveProductRef ps x.productRef with
  | none =>
    rw [hres] at hmap
    exact absurd hmap (by simp)
  | some p =>
    rw [hres] at hmap
    obtain rfl := Option.some.inj hmap
    rfl

theorem invOps_batch_invoiceId (now : Ts) (db : DB) (l : List ServerInvoice) :
    ∀ op ∈ invOps now db l, ∀ x ∈ op.2, x.invoiceId = op.1 := by
  induction l generalizing db with
  | nil => exact fun op h => absurd h (List.not_mem_nil _)
  | cons sv xs ih =>
    intro op hop
    rw [invOps_cons] at hop
    rcases List.mem_append.mp hop with hop | hop
    · cases hits : sv.items with
      | none =>
        rw [hits] at hop
        exact absurd hop (List.not_mem_nil _)
      | some its =>
        rw [hits] at hop
        cases hlid : pullInvoiceLid now db sv with
        | none =>
          rw [hlid] at hop
          exact absurd hop (List.not_mem_nil _)
        | some lid =>
          rw [hlid] at hop
          rw [List.mem_singleton.mp hop]
          exact resolveItems_invoiceId db.products lid its
    · exact ih (pullInvoiceStep now db sv) op hop

theorem invOps_lids_sublist (now : Ts) (db : DB) (l : List ServerInvoice)
    (hall : ∀ sv ∈ l, sv.effSid.isSome = true) :
    ((invOps now db l).map Prod.fst).Sublist (invoiceTargets now db l) := by
  induction l generalizing db with
  | nil => exact List.Sublist.refl _
  | cons sv xs ih =>
    rw [invOps_cons]
    show (List.map Prod.fst (_ ++ _)).Sublist
      (invoiceTargetId db sv :: invoiceTargets now (pullInvoiceStep now db sv) xs)
    rw [List.map_append]
    have htail := ih (pullInvoiceStep now db sv)
      (fun y hy => hall y (List.mem_cons_of_mem _ hy))
    cases hits : sv.items with
    | none => exact htail.cons _
    | some its =>
      rw [pullInvoiceLid_eq now db sv (hall sv (List.mem_cons_self _ _))]
      exact htail.cons₂ _

theorem invOps_lids_nodup (now : Ts) (db : DB) (l : List ServerInvoice)
    (hall : ∀ sv ∈ l, sv.effSid.isSome = true)
    (hts : (invoiceTargets now db l).Nodup) :
    ((invOps now db l).map Prod.fst).Nodup :=
  (invOps_lids_sublist now db l hall).nodup hts

theorem invOps_canonical (now : Ts) (db : DB) (l : List ServerInvoice)
    (hall : ∀ sv ∈ l, sv.effSid.isSome = true) :
    invOps now db l =
      opsFromTargets now db.products l (invoiceTargets now db l) := by
  induction l generalizing db with
  | nil => rfl
  | cons sv xs ih =>
    rw [invOps_cons]
    show _ = opsFromTargets now db.products (sv :: xs)
      (invoiceTargetId db sv :: invoiceTargets now (pullInvoiceStep now db sv) xs)
    unfold opsFromTargets
    congr 1
    · cases hits : sv.items with
      | none => rfl
      | some its =>
        rw [pullInvoiceLid_eq now db sv (hall sv (List.mem_cons_self _ _))]
    · rw [ih (pullInvoiceStep now db sv) (fun y hy => hall y (List.mem_cons_of_mem _ hy))]
      rw [pullInvoiceStep_products]

theorem pullInvoices_items_char (now : Ts) (db : DB) (l : List ServerInvoice)
    (hnodup : ((invOps now db l).map Prod.fst).Nodup) :
    (pullInvoices now db l).items =
      db.items.filter
        (fun it => (invOps now db l).all (fun op => it.invoiceId != op.1)) ++
      ((invOps now db l).map Prod.snd).flatten := by
  induction l generalizing db with
  | nil =>
    show db.items = db.items.filter _ ++ _
    rw [show (fun it : InvoiceItem =>
        (invOps now db ([] : List ServerInvoice)).all
          (fun op => it.invoiceId != op.1)) = (fun _ => true) from rfl]
    rw [List.filter_true]
    show db.items = db.items ++ []
    rw [List.append_nil]
  | cons sv xs ih =>
    cases hits : sv.items with
    | none =>
      have hops : invOps now db (sv :: xs) =
          invOps now (pullInvoiceStep now db sv) xs := by
        rw [invOps_cons, hits]
        rfl
      show (pullInvoices now (pullInvoiceStep now db sv) xs).items = _
      rw [hops]
      rw [← pullInvoiceStep_items_none now db sv hits]
      exact ih _ (hops ▸ hnodup)
    | some its =>
      cases hlid : pullInvoiceLid now db sv with
      | none =>
        have hops : invOps now db (sv :: xs) =
            invOps now (pullInvoiceStep now db sv) xs := by
          rw [invOps_cons, hits, hlid]
          rfl
        show (pullInvoices now (pullInvoiceStep now db sv) xs).items = _
        rw [hops]
        rw [← pullInvoiceStep_items_noLid now db sv its hits hlid]
        exact ih _ (hops ▸ hnodup)
      | some lid =>
        have hops : invOps now db (sv :: xs) =
            (lid, resolveItems db.products lid its) ::
              invOps now (pullInvoiceStep now db sv) xs := by
          rw [invOps_cons, hits, hlid]
          rfl
        rw [hops] at hnodup
        rw [List.map_cons, List.nodup_cons] at hnodup
        obtain ⟨hlid_not, hnodup'⟩ := hnodup
        show (pullInvoices now (pullInvoiceStep now db sv) xs).items = _
        rw [hops]
        rw [ih _ hnodup']
        rw [pullInvoiceStep_items_lid now db sv its lid hits hlid]
        rw [List.filter_append]
        have hb : (resolveItems db.products lid its).filter
            (fun it => (invOps now (pullInvoiceStep now db sv) xs).all
              (fun op => it.invoiceId != op.1)) =
            resolveItems db.products lid its := by
          refine filter_eq_self_of_all _ _ (fun x hx => ?_)
          rw [resolveItems_invoiceId db.products lid its x hx]
          refine List.all_eq_true.mpr (fun op hop => ?_)
          refine bne_iff_ne.mpr (fun he => hlid_not ?_)
          have hop1 : op.1 ∈ (invOps now (pullInvoiceStep now db sv) xs).map Prod.fst :=
            List.mem_map_of_mem Prod.fst hop
          rw [he]
          exact hop1
        rw [hb]
        rw [List.filter_filter]
        have hpred : ∀ a ∈ db.items,
            ((invOps now (pullInvoiceStep now db sv) xs).all
                (fun op => a.invoiceId != op.1) && (a.invoiceId != lid)) =
            (((lid, resolveItems db.products lid its) ::
                invOps now (pullInvoiceStep now db sv) xs).all
              (fun op => a.invoiceId != op.1)) := by
          intro a _
          rw [List.all_cons]
          exact Bool.and_comm _ _
        rw [List.filter_congr hpred]
        rw [List.map_cons, List.flatten_cons]
        rw [List.append_assoc]

/-! ## The second pull run -/

theorem dbExt (a b : DB) (h1 : a.products = b.products)
    (h2 : a.invoices = b.invoices) (h3 : a.items = b.items)
    (h4 : a.nextProductId = b.nextProductId)
    (h5 : a.nextInvoiceId = b.nextInvoiceId) : a = b := by
  cases a
  cases b
  simp_all

theorem pullInvoiceUpsert_invoices_dep (now : Ts) (sv : ServerInvoice)
    (d1 d2 : DB) (h1 : d1.invoices = d2.invoices)
    (h2 : d1.nextInvoiceId = d2.nextInvoiceId) :
    (pullInvoiceUpsert now d1 sv).invoices = (pullInvoiceUpsert now d2 sv).invoices := by
  unfold pullInvoiceUpsert
  rw [h1, h2]
  cases d2.invoices.find? (fun i => matchesInvoice sv i) <;> rfl

theorem pullInvoiceUpsert_nextInvoiceId_dep (now : Ts) (sv : ServerInvoice)
    (d1 d2 : DB) (h1 : d1.invoices = d2.invoices)
    (h2 : d1.nextInvoiceId = d2.nextInvoiceId) :
    (pullInvoiceUpsert now d1 sv).nextInvoiceId =
      (pullInvoiceUpsert now d2 sv).nextInvoiceId := by
  unfold pullInvoiceUpsert
  rw [h1, h2]
  cases d2.invoices.find? (fun i => matchesInvoice sv i) <;> rfl

theorem invoiceTargets_depOnly (now : Ts) (l : List ServerInvoice) (d1 d2 : DB)
    (h1 : d1.invoices = d2.invoices) (h2 : d1.nextInvoiceId = d2.nextInvoiceId) :
    invoiceTargets now d1 l = invoiceTargets now d2 l := by
  induction l generalizing d1 d2 with
  | nil => rfl
  | cons sv xs ih =>
    show invoiceTargetId d1 sv :: invoiceTargets now (pullInvoiceStep now d1 sv) xs =
      invoiceTargetId d2 sv :: invoiceTargets now (pullInvoiceStep now d2 sv) xs
    have hh : invoiceTargetId d1 sv = invoiceTargetId d2 sv := by
      unfold invoiceTargetId
      rw [h1, h2]
    rw [hh]
    congr 1
    refine ih _ _ ?_ ?_
    · rw [pullInvoiceStep_invoices, pullInvoiceStep_invoices]
      exact pullInvoiceUpsert_invoices_dep now sv d1 d2 h1 h2
    · rw [pullInvoiceStep_nextInvoiceId, pullInvoiceStep_nextInvoiceId]
      exact pullInvoiceUpsert_nextInvoiceId_dep now sv d1 d2 h1 h2

theorem invoiceTargets_run2 (now : Ts) (l : List ServerInvoice) (A' B' : DB)
    (h : ∀ pair ∈ l.zip (invoiceTargets now A' l),
      absorbedI now B'.invoices pair.1 pair.2) :
    invoiceTargets now B' l = invoiceTargets now A' l := by
  induction l generalizing A' B' with
  | nil => rfl
  | cons sv xs ih =>
    have hzip : (sv :: xs).zip (invoiceTargets now A' (sv :: xs)) =
        (sv, invoiceTargetId A' sv) ::
          xs.zip (invoiceTargets now (pullInvoiceStep now A' sv) xs) := rfl
    obtain ⟨r, hfind, hid, hw, huniq⟩ :=
      h (sv, invoiceTargetId A' sv) (by rw [hzip]; exact List.mem_cons_self _ _)
    have htid : invoiceTargetId B' sv = invoiceTargetId A' sv := by
      unfold invoiceTargetId
      rw [hfind]
      exact hid
    show invoiceTargetId B' sv :: invoiceTargets now (pullInvoiceStep now B' sv) xs =
      invoiceTargetId A' sv :: invoiceTargets now (pullInvoiceStep now A' sv) xs
    rw [htid]
    congr 1
    have hfixB : pullInvoiceUpsert now B' sv = B' :=
      absorbedI_fix now B' sv (invoiceTargetId A' sv) ⟨r, hfind, hid, hw, huniq⟩
    have hInv : (pullInvoiceStep now B' sv).invoices = B'.invoices := by
      rw [pullInvoiceStep_invoices, hfixB]
    have hNid : (pullInvoiceStep now B' sv).nextInvoiceId = B'.nextInvoiceId := by
      rw [pullInvoiceStep_nextInvoiceId, hfixB]
    rw [invoiceTargets_depOnly now xs (pullInvoiceStep now B' sv) B' hInv hNid]
    refine ih (pullInvoiceStep now A' sv) B' ?_
    intro pair hp
    refine h pair ?_
    rw [hzip]
    exact List.mem_cons_of_mem _ hp

theorem pullInvoices_fixed_upserts (now : Ts) (db : DB) (l : List ServerInvoice)
    (h : ∀ sv ∈ l, ∃ t, absorbedI now db.invoices sv t) :
    (pullInvoices now db l).invoices = db.invoices ∧
    (pullInvoices now db l).nextInvoiceId = db.nextInvoiceId := by
  induction l generalizing db with
  | nil => exact ⟨rfl, rfl⟩
  | cons sv xs ih =>
    obtain ⟨t, habs⟩ := h sv (List.mem_cons_self _ _)
    have hfix : pullInvoiceUpsert now db sv = db := absorbedI_fix now db sv t habs
    have hInv : (pullInvoiceStep now db sv).invoices = db.invoices := by
      rw [pullInvoiceStep_invoices, hfix]
    have hNid : (pullInvoiceStep now db sv).nextInvoiceId = db.nextInvoiceId := by
      rw [pullInvoiceStep_nextInvoiceId, hfix]
    have h' : ∀ sv' ∈ xs, ∃ t',
        absorbedI now (pullInvoiceStep now db sv).invoices sv' t' := by
      intro sv' hsv'
      obtain ⟨t', habs'⟩ := h sv' (List.mem_cons_of_mem _ hsv')
      refine ⟨t', ?_⟩
      rw [hInv]
      exact habs'
    obtain ⟨hI, hN⟩ := ih (pullInvoiceStep now db sv) h'
    constructor
    · show (pullInvoices now (pullInvoiceStep now db sv) xs).invoices = db.invoices
      rw [hI, hInv]
    · show (pullInvoices now (pullInvoiceStep now db sv) xs).nextInvoiceId =
        db.nextInvoiceId
      rw [hN, hNid]

theorem pullInvoices_run2 (now : Ts) (A : DB) (l : List ServerInvoice)
    (hokIA : invoiceIdsOk A) (hs : safeInvoices now A l) :
    pullInvoices now (pullInvoices now A l) l = pullInvoices now A l := by
  obtain ⟨hall, hsids, hts⟩ := hs
  have habs := pullInvoices_absorbs_zip now A l hokIA ⟨hall, hsids, hts⟩
  have habs' := pullInvoices_absorbs now A l hokIA ⟨hall, hsids, hts⟩
  obtain ⟨hI, hN⟩ := pullInvoices_fixed_upserts now (pullInvoices now A l) l habs'
  have htg : invoiceTargets now (pullInvoices now A l) l = invoiceTargets now A l :=
    invoiceTargets_run2 now l A (pullInvoices now A l) habs
  have hBA : (pullInvoices now A l).products = A.products :=
    pullInvoices_products now A l
  have hops : invOps now (pullInvoices now A l) l = invOps now A l := by
    rw [invOps_canonical now _ l hall, invOps_canonical now A l hall, htg, hBA]
  have hnodupA : ((invOps now A l).map Prod.fst).Nodup :=
    invOps_lids_nodup now A l hall hts
  have hnodupB : ((invOps now (pullInvoices now A l) l).map Prod.fst).Nodup := by
    rw [hops]
    exact hnodupA
  have hitemsA : (pullInvoices now A l).items =
      A.items.filter
        (fun it => (invOps now A l).all (fun op => it.invoiceId != op.1)) ++
      ((invOps now A l).map Prod.snd).flatten :=
    pullInvoices_items_char now A l hnodupA
  have hitemsB := pullInvoices_items_char now (pullInvoices now A l) l hnodupB
  rw [hops] at hitemsB
  have hitems2 : (pullInvoices now (pullInvoices now A l) l).items =
      (pullInvoices now A l).items := by
    rw [hitemsB, hitemsA]
    rw [List.filter_append]
    have hPP : (A.items.filter
        (fun it => (invOps now A l).all (fun op => it.invoiceId != op.1))).filter
        (fun it => (invOps now A l).all (fun op => it.invoiceId != op.1)) =
        A.items.filter
          (fun it => (invOps now A l).all (fun op => it.invoiceId != op.1)) := by
      rw [List.filter_filter]
      refine List.filter_congr (fun a _ => ?_)
      exact Bool.and_self _
    have hFF : (((invOps now A l).map Prod.snd).flatten).filter
        (fun it => (invOps now A l).all (fun op => it.invoiceId != op.1)) = [] := by
      refine filter_eq_nil_of_all _ _ (fun x hx => ?_)
      obtain ⟨b, hb, hxb⟩ := List.mem_flatten.mp hx
      obtain ⟨op, hop, rfl⟩ := List.mem_map.mp hb
      have hxid : x.invoiceId = op.1 := invOps_batch_invoiceId now A l op hop x hxb
      refine Bool.eq_false_iff.mpr (fun hall2 => ?_)
      have := List.all_eq_true.mp hall2 op hop
      exact (bne_iff_ne.mp this) hxid
    rw [hPP, hFF, List.append_nil]
  refine dbExt _ _ ?_ hI hitems2 ?_ hN
  · rw [pullInvoices_products, pullInvoices_products]
  · rw [pullInvoices_nextProductId, pullInvoices_nextProductId]

/-! ## C2 — idempotence of pull -/

/-- **C2** (counterexample).  A snapshot with a single product record carrying
neither `_id` nor `id` matches nothing on either pull: the first pull inserts
one row (with NULL serverId), and the second pull inserts another — the local
state after two pulls of the identical snapshot differs from the state after
one. -/
theorem c2_pull_not_idempotent :
    pullFromServer nowFix snapNoId (pullFromServer nowFix snapNoId dbEmpty) ≠
      pullFromServer nowFix snapNoId dbEmpty ∧
    (pullFromServer nowFix snapNoId (pullFromServer nowFix snapNoId dbEmpty)).products.length = 2 ∧
    (pullFromServer nowFix snapNoId dbEmpty).products.length = 1 := by
  exact ⟨by decide, by decide, by decide⟩

/-- **C2** (amended).  Pull is idempotent — re-running it with the identical
snapshot (and timestamp) reproduces the identical local state row-for-row and
item-for-item — provided the snapshot is safe: every product and invoice
record carries a server identifier, the identifiers are pairwise distinct
within each table, and no two records of the same table resolve to the same
local row. -/
theorem c2_pull_idempotent_amended (now : Ts) (snap : Snapshot) (db : DB)
    (hwf : db.WF) (hsafe : pullSafe now db snap) :
    pullFromServer now snap (pullFromServer now snap db) =
      pullFromServer now snap db := by
  obtain ⟨hokP, hokI⟩ := hwf
  obtain ⟨hsp, hsi⟩ := hsafe
  have habsP := pullProducts_absorbs now db snap.products hokP hsp
  have hokIA : invoiceIdsOk (pullProducts now db snap.products) := by
    constructor
    · intro i hi
      rw [pullProducts_invoices] at hi
      rw [pullProducts_nextInvoiceId]
      exact hokI.1 i hi
    · rw [pullProducts_invoices]
      exact hokI.2
  unfold pullFromServer
  have hBprod : (pullInvoices now (pullProducts now db snap.products)
      snap.invoices).products = (pullProducts now db snap.products).products :=
    pullInvoices_products now _ snap.invoices
  have hrun2P : pullProducts now
      (pullInvoices now (pullProducts now db snap.products) snap.invoices)
      snap.products =
      pullInvoices now (pullProducts now db snap.products) snap.invoices := by
    refine pullProducts_fixed now _ snap.products (fun sp hsp2 => ?_)
    obtain ⟨t, habs⟩ := habsP sp hsp2
    refine ⟨t, ?_⟩
    rw [hBprod]
    exact habs
  rw [hrun2P]
  exact pullInvoices_run2 now (pullProducts now db snap.products) snap.invoices
    hokIA hsi

/-- Witness for C2 amended: a safe snapshot (identified product, identified
invoice with one item) over a one-product store. -/
theorem c2_pull_idempotent_amended_witness :
    pullFromServer nowFix snapFull (pullFromServer nowFix snapFull dbProdOne) =
      pullFromServer nowFix snapFull dbProdOne :=
  c2_pull_idempotent_amended nowFix snapFull dbProdOne (by decide) (by decide)

/-! ## C5 — item replacement -/

theorem opsFromTargets_mem (now : Ts) (P : List Product) (l : List ServerInvoice)
    (ts : List Nat) :
    ∀ pair ∈ l.zip ts, ∀ its, pair.1.items = some its →
      (pair.2, resolveItems P pair.2 its) ∈ opsFromTargets now P l ts := by
  induction l generalizing ts with
  | nil =>
    intro pair h
    exact absurd h (by simp)
  | cons sv xs ih =>
    cases ts with
    | nil =>
      intro pair h
      exact absurd h (by simp)
    | cons t ts' =>
      rintro ⟨sv', t'⟩ hp its hits
      rw [List.zip_cons_cons] at hp
      rcases List.mem_cons.mp hp with heq | hp'
      · rw [Prod.mk.injEq] at heq
        obtain ⟨rfl, rfl⟩ := heq
        show (t', resolveItems P t' its) ∈
          (match sv'.items with
           | none => []
           | some its2 => [(t', resolveItems P t' its2)]) ++
          opsFromTargets now P xs ts'
        have hits' : sv'.items = some its := hits
        rw [hits']
        exact List.mem_append_left _ (List.mem_singleton.mpr rfl)
      · exact List.mem_append_right _ (ih ts' ⟨sv', t'⟩ hp' its hits)

theorem filter_flatten_ops (t : Nat) (b : List InvoiceItem)
    (ops : List (Nat × List InvoiceItem))
    (hmem : (t, b) ∈ ops)
    (hnodup : (ops.map Prod.fst).Nodup)
    (hbatch : ∀ op ∈ ops, ∀ x ∈ op.2, x.invoiceId = op.1) :
    ((ops.map Prod.snd).flatten).filter (fun it => it.invoiceId == t) = b := by
  induction ops with
  | nil => exact absurd hmem (List.not_mem_nil _)
  | cons op rest ih =>
    rw [List.map_cons, List.flatten_cons, List.filter_append]
    rw [List.map_cons, List.nodup_cons] at hnodup
    obtain ⟨hop1, hnodup'⟩ := hnodup
    rcases List.mem_cons.mp hmem with heq | hmem'
    · obtain rfl := heq.symm
      have hfb : b.filter (fun it => it.invoiceId == t) = b := by
        refine filter_eq_self_of_all _ _ (fun x hx => ?_)
        rw [hbatch (t, b) (List.mem_cons_self _ _) x hx]
        exact beq_self_eq_true _
      have hfr : ((rest.map Prod.snd).flatten).filter
          (fun it => it.invoiceId == t) = [] := by
        refine filter_eq_nil_of_all _ _ (fun x hx => ?_)
        obtain ⟨bb, hbb, hxbb⟩ := List.mem_flatten.mp hx
        obtain ⟨op', hop', rfl⟩ := List.mem_map.mp hbb
        rw [hbatch op' (List.mem_cons_of_mem _ hop') x hxbb]
        refine beq_eq_false_iff_ne.mpr (fun he => hop1 ?_)
        show (t, b).1 ∈ rest.map Prod.fst
        rw [show ((t, b).1 : Nat) = t from rfl, ← he]
        exact List.mem_map_of_mem Prod.fst hop'
      show b.filter _ ++ _ = b
      rw [hfb, hfr, List.append_nil]
    · have hopt : op.1 ≠ t := by
        intro he
        refine hop1 ?_
        rw [he]
        exact List.mem_map_of_mem Prod.fst hmem'
      have hfh : (op.2).filter (fun it => it.invoiceId == t) = [] := by
        refine filter_eq_nil_of_all _ _ (fun x hx => ?_)
        rw [hbatch op (List.mem_cons_self _ _) x hx]
        exact beq_eq_false_iff_ne.mpr hopt
      rw [hfh]
      rw [ih hmem' hnodup' (fun op' h' => hbatch op' (List.mem_cons_of_mem _ h'))]
      rfl

/-- **C5** (counterexample).  A snapshot invoice carrying a resolvable item
list but neither `_id` nor `id` is inserted as a fresh local row with NULL
serverId; the `localInvoiceId` lookup then binds NULL, resolves nothing, and
the item phase is skipped entirely: the invoice row exists locally with zero
items although its snapshot items were resolvable. -/
theorem c5_item_replacement_counterexample :
    (pullFromServer nowFix snapInvNoId dbProdOne).items = [] ∧
    (pullFromServer nowFix snapInvNoId dbProdOne).invoices.length = 1 ∧
    resolveItems
        (pullProducts nowFix dbProdOne snapInvNoId.products).products 1
        [⟨ProdRef.byNum 1, 2, 3⟩] =
      [{ invoiceId := 1, productId := 1, quantity := 2, price := 3 }] := by
  exact ⟨by decide, by decide, by decide⟩

/-- **C5** (amended).  For every snapshot invoice carrying an items list,
provided the snapshot is safe (every record carries a server identifier,
identifiers pairwise distinct, no two records of a table resolving to the same
local row), the local `invoice_items` rows for that invoice's local row after
the pull are exactly the snapshot's resolvable items — resolved against the
product table as the product loop leaves it — replacing, not appending to,
whatever items the row had before. -/
theorem c5_item_replacement_amended (now : Ts) (snap : Snapshot) (db : DB)
    (hwf : db.WF) (hsafe : pullSafe now db snap) :
    ∀ pair ∈ snap.invoices.zip
        (invoiceTargets now (pullProducts now db snap.products) snap.invoices),
      ∀ its, pair.1.items = some its →
        (pullFromServer now snap db).items.filter
            (fun it => it.invoiceId == pair.2) =
          resolveItems (pullProducts now db snap.products).products pair.2 its := by
  obtain ⟨hokP, hokI⟩ := hwf
  obtain ⟨hsp, hsi⟩ := hsafe
  obtain ⟨hall, hsids, hts⟩ := hsi
  have hokIA : invoiceIdsOk (pullProducts now db snap.products) := by
    constructor
    · intro i hi
      rw [pullProducts_invoices] at hi
      rw [pullProducts_nextInvoiceId]
      exact hokI.1 i hi
    · rw [pullProducts_invoices]
      exact hokI.2
  intro pair hp its hits
  have hnodup : ((invOps now (pullProducts now db snap.products) snap.invoices).map
      Prod.fst).Nodup :=
    invOps_lids_nodup now _ snap.invoices hall hts
  have hchar := pullInvoices_items_char now (pullProducts now db snap.products)
    snap.invoices hnodup
  have hcanon := invOps_canonical now (pullProducts now db snap.products)
    snap.invoices hall
  have hmem : (pair.2, resolveItems
      (pullProducts now db snap.products).products pair.2 its) ∈
      invOps now (pullProducts now db snap.products) snap.invoices := by
    rw [hcanon]
    exact opsFromTargets_mem now _ snap.invoices _ pair hp its hits
  show (pullInvoices now (pullProducts now db snap.products) snap.invoices).items.filter
      (fun it => it.invoiceId == pair.2) = _
  rw [hchar]
  rw [List.filter_append]
  have hA : ((pullProducts now db snap.products).items.filter
      (fun it => (invOps now (pullProducts now db snap.products) snap.invoices).all
        (fun op => it.invoiceId != op.1))).filter
      (fun it => it.invoiceId == pair.2) = [] := by
    refine filter_eq_nil_of_all _ _ (fun x hx => ?_)
    obtain ⟨_, hxall⟩ := List.mem_filter.mp hx
    have := List.all_eq_true.mp hxall _ hmem
    exact beq_eq_false_iff_ne.mpr (bne_iff_ne.mp this)
  rw [hA]
  rw [filter_flatten_ops pair.2 _ _ hmem hnodup
    (invOps_batch_invoiceId now _ snap.invoices)]
  rfl

/-- Witness for C5 amended: the safe snapshot `snapFull` pulled over the
one-product store — the single invoice's local row carries exactly the
resolved item. -/
theorem c5_item_replacement_amended_witness :
    (pullFromServer nowFix snapFull dbProdOne).items.filter
        (fun it => it.invoiceId == 1) =
      resolveItems (pullProducts nowFix dbProdOne snapFull.products).products 1
        [⟨ProdRef.byNum 1, 2, 3⟩] :=
  c5_item_replacement_amended nowFix snapFull dbProdOne (by decide) (by decide)
    (svWithItem, 1) (by decide) [⟨ProdRef.byNum 1, 2, 3⟩] rfl

end RevSync
